import Mathlib

/-!
Shallow embedding of the recurring-transaction scheduling engine of the
FinanceHub backend (src/models/transaction.ts, src/models/recurringTransaction.ts).

Calendar dates are modelled as (year, month, day) triples; all the source's
JavaScript `Date` objects are normalized to local midnight before use, so
every comparison in the source reduces to a comparison of calendar triples
(the end-of-day 23:59:59.999 normalization of `endDate` only turns strict
comparisons against midnight instants into date-level comparisons, which is
what the embedding uses).  JavaScript `setDate` / `setMonth` / `setFullYear`
overflow semantics (day rollover into the following month) are modelled
explicitly in `addMonthJS` / `addYearJS`.
-/

namespace FinHub


/-- A timezone-independent calendar date, as the source's midnight-normalized
`Date` values. -/
structure Date where
  year : Nat
  month : Nat
  day : Nat
deriving DecidableEq, Repr


/-- Lexicographic strict order on dates; matches comparison of midnight
timestamps of normalized JS dates. -/
def Date.lt (a b : Date) : Bool :=
  a.year < b.year ||
    (a.year == b.year && (a.month < b.month ||
      (a.month == b.month && a.day < b.day)))


/-- Lexicographic order on dates (non-strict). -/
def Date.le (a b : Date) : Bool :=
  Date.lt a b || a == b


/-- Leap-year test, as written in the source (`isLeapYear`). -/
def isLeap (y : Nat) : Bool :=
  (y % 4 == 0 && y % 100 != 0) || y % 400 == 0


/-- Number of days of month `m` of year `y` (the source obtains this via
`new Date(year, month + 1, 0).getDate()`). -/
def daysInMonth (y m : Nat) : Nat :=
  if m == 2 then (if isLeap y then 29 else 28)
  else if m == 4 || m == 6 || m == 9 || m == 11 then 30
  else 31


/-- The day after `d` (JS `setDate(getDate() + 1)`). -/
def nextDayD (d : Date) : Date :=
  if d.day < daysInMonth d.year d.month then ⟨d.year, d.month, d.day + 1⟩
  else if d.month < 12 then ⟨d.year, d.month + 1, 1⟩
  else ⟨d.year + 1, 1, 1⟩


/-- The day before `d` (JS `setDate(getDate() - 1)`), used by
`getPreviousDay`. -/
def prevDayD (d : Date) : Date :=
  if 1 < d.day then ⟨d.year, d.month, d.day - 1⟩
  else if 1 < d.month then ⟨d.year, d.month - 1, daysInMonth d.year (d.month - 1)⟩
  else ⟨d.year - 1, 12, 31⟩


/-- `n` applications of `nextDayD`. -/
def addDaysD : Nat → Date → Date
  | 0, d => d
  | n + 1, d => addDaysD n (nextDayD d)


/-- JS `setMonth(getMonth() + 1)`: the month index is incremented and a day
past the end of the new month rolls over into the month after it. -/
def addMonthJS (d : Date) : Date :=
  let y := if d.month == 12 then d.year + 1 else d.year
  let m := if d.month == 12 then 1 else d.month + 1
  if d.day ≤ daysInMonth y m then ⟨y, m, d.day⟩
  else
    let y2 := if m == 12 then y + 1 else y
    let m2 := if m == 12 then 1 else m + 1
    ⟨y2, m2, d.day - daysInMonth y m⟩


/-- JS `setFullYear(getFullYear() + 1)`: Feb 29 rolls over to Mar 1 in a
non-leap target year. -/
def addYearJS (d : Date) : Date :=
  if d.month == 2 && d.day == 29 && !isLeap (d.year + 1) then ⟨d.year + 1, 3, 1⟩
  else ⟨d.year + 1, d.month, d.day⟩


/-- Rata-die style day number, used for day differences and weekdays.
Only differences and congruences of this value are ever used, matching the
source's `getTime()` arithmetic on midnight dates. -/
def toRd (d : Date) : Nat :=
  let p := d.year - 1
  let beforeMonth : Nat :=
    (match d.month with
     | 1 => 0 | 2 => 31 | 3 => 59 | 4 => 90 | 5 => 120 | 6 => 151
     | 7 => 181 | 8 => 212 | 9 => 243 | 10 => 273 | 11 => 304 | _ => 334) +
    (if 2 < d.month && isLeap d.year then 1 else 0)
  365 * p + p / 4 + p / 400 + beforeMonth + d.day - p / 100


/-- Weekday index of `d`; only equality of weekdays is ever compared
(JS `getDay()` equality). -/
def weekdayD (d : Date) : Nat := toRd d % 7


/-- The four recurrence frequencies. -/
inductive Frequency
  | daily
  | weekly
  | monthly
  | yearly
deriving DecidableEq, Repr


/-- Entry kind. -/
inductive TxType
  | income
  | expense
deriving DecidableEq, Repr


/-- `calculateNextOccurrence` of the source: calendar-arithmetic advance with
JS rollover semantics. -/
def calculateNextOccurrence (d : Date) (f : Frequency) : Date :=
  match f with
  | .daily => nextDayD d
  | .weekly => addDaysD 7 d
  | .monthly => addMonthJS d
  | .yearly => addYearJS d


/-- `getPreviousDay` of the source. -/
def getPreviousDay (d : Date) : Date := prevDayD d


/-- The `{ startDate, endDate, frequency }` record the source passes to the
occurrence-policy helpers. -/
structure RecShape where
  startDate : Date
  endDate : Option Date
  frequency : Frequency
deriving DecidableEq, Repr


/-- `true` when the (end-of-day normalized) optional end date lies strictly
before `d`, i.e. the source's `endDate && checkDate > endDate`. -/
def afterEnd (r : RecShape) (d : Date) : Bool :=
  match r.endDate with
  | some e => Date.lt e d
  | none => false


/-- `isDateValidOccurrence` of the source. -/
def isDateValidOccurrence (d : Date) (r : RecShape) : Bool :=
  if Date.lt d r.startDate then false
  else if afterEnd r d then false
  else
    match r.frequency with
    | .daily => true
    | .weekly =>
        if weekdayD d != weekdayD r.startDate then false
        else
          let daysDiff : Int := (toRd d : Int) - (toRd r.startDate : Int)
          decide (0 ≤ daysDiff) && daysDiff % 7 == 0
    | .monthly =>
        let startDay := r.startDate.day
        if 28 < startDay then
          d.day == min startDay (daysInMonth d.year d.month)
        else
          d.day == startDay
    | .yearly =>
        if r.startDate.month == 2 && r.startDate.day == 29 then
          if d.month == 2 then
            (if isLeap d.year then d.day == 29 else d.day == 28)
          else false
        else
          d.month == r.startDate.month && d.day == r.startDate.day


/-- The bounded search loop of `findNextValidOccurrence`: at most `fuel`
validity checks, advancing by `calculateNextOccurrence`, giving up past the
end date or when the date fails to advance. -/


def findNextGo (r : RecShape) : Nat → Date → Option Date
  | 0, _ => none
  | fuel + 1, c =>
      if isDateValidOccurrence c r then some c
      else
        let n := calculateNextOccurrence c r.frequency
        if afterEnd r n then none
        else if Date.le n c then none
        else findNextGo r fuel n


/-- `findNextValidOccurrence` of the source (default `maxIterations = 100`). -/
def findNextValidOccurrence (c : Date) (r : RecShape)
    (maxIterations : Nat := 100) : Option Date :=
  let c0 := if Date.lt c r.startDate then r.startDate else c
  if afterEnd r c0 then none
  else findNextGo r maxIterations c0


/-! ## Data model and abstract store

`Series` mirrors the RecurringTransaction row, `Entry` the Transaction row.
Identifiers and category references are modelled as naturals; amounts as
integers (the claims only involve integral amounts).  The store mirrors the
Prisma collections: `createTransaction` fails exactly when the referenced
category is dangling (the foreign-key failure the source catches during
generation); trivial timestamp columns are omitted.
-/

/-- A recurring-transaction row. -/
structure Series where
  id : Nat
  userId : Nat
  categoryId : Nat
  amount : Int
  type : TxType
  description : Option String
  frequency : Frequency
  startDate : Date
  endDate : Option Date
  nextOccurrence : Date
  isActive : Bool
deriving DecidableEq, Repr


/-- The `{ startDate, endDate, frequency }` record the source extracts from a
recurring row before calling the occurrence-policy helpers. -/
def seriesShape (s : Series) : RecShape :=
  ⟨s.startDate, s.endDate, s.frequency⟩


/-- A transaction (ledger-entry) row. -/
structure Entry where
  id : Nat
  userId : Nat
  categoryId : Nat
  amount : Int
  type : TxType
  description : Option String
  date : Date
  recurringTransactionId : Option Nat
  isOverride : Bool
deriving DecidableEq, Repr


/-- The abstract store shared by all components: the two collections, the set
of existing category ids (for foreign-key checks on entry creation), and
fresh-id counters. -/
structure Store where
  seriesList : List Series
  txs : List Entry
  cats : List Nat
  nextTxId : Nat
  nextSeriesId : Nat
deriving DecidableEq, Repr


namespace Store


/-- `RecurringTransactionModel.getRecurringTransactionById`. -/
def getRecurringTransactionById (st : Store) (i : Nat) : Option Series :=
  st.seriesList.find? (fun s => s.id == i)


/-- The optional fields of `UpdateRecurringTransactionInput` that the engine
ever sets. -/
structure RecUpdate where
  categoryId : Option Nat := none
  amount : Option Int := none
  type : Option TxType := none
  description : Option (Option String) := none
  frequency : Option Frequency := none
  endDate : Option (Option Date) := none
  nextOccurrence : Option Date := none
  isActive : Option Bool := none
deriving Repr


/-- Apply an update record to a row: provided fields overwrite, absent fields
are kept (Prisma `update` data semantics). -/
def applyRecUpdate (u : RecUpdate) (s : Series) : Series :=
  { s with
    categoryId := u.categoryId.getD s.categoryId
    amount := u.amount.getD s.amount
    type := u.type.getD s.type
    description := u.description.getD s.description
    frequency := u.frequency.getD s.frequency
    endDate := u.endDate.getD s.endDate
    nextOccurrence := u.nextOccurrence.getD s.nextOccurrence
    isActive := u.isActive.getD s.isActive }


/-- `RecurringTransactionModel.updateRecurringTransaction`. -/
def updateRecurringTransaction (st : Store) (i : Nat) (u : RecUpdate) : Store :=
  { st with seriesList := st.seriesList.map (fun s => if s.id == i then applyRecUpdate u s else s) }


/-- The input record of `RecurringTransactionModel.createRecurringTransaction`. -/
structure CreateSeriesInput where
  userId : Nat
  categoryId : Nat
  amount : Int
  type : TxType
  description : Option String
  frequency : Frequency
  startDate : Date
  endDate : Option Date
  nextOccurrence : Date
  isActive : Bool
deriving Repr


/-- `RecurringTransactionModel.createRecurringTransaction`: appends a fresh
row. -/
def createRecurringTransaction (st : Store) (c : CreateSeriesInput) : Store × Series :=
  let s : Series :=
    ⟨st.nextSeriesId, c.userId, c.categoryId, c.amount, c.type, c.description,
     c.frequency, c.startDate, c.endDate, c.nextOccurrence, c.isActive⟩
  ({ st with seriesList := st.seriesList ++ [s], nextSeriesId := st.nextSeriesId + 1 }, s)


/-- `RecurringTransactionModel.deleteRecurringTransaction`. -/
def deleteRecurringTransaction (st : Store) (i : Nat) : Store :=
  { st with seriesList := st.seriesList.filter (fun s => !(s.id == i)) }


/-- `getDueRecurringTransactions`: active rows whose pointer is on or before
the date and whose window has not closed before it, ordered by pointer
(modelled with a stable insertion sort, as the query's `orderBy`). -/
def insertByNext (s : Series) : List Series → List Series
  | [] => [s]
  | t :: ts => if Date.lt s.nextOccurrence t.nextOccurrence then s :: t :: ts
               else t :: insertByNext s ts


/-- Stable sort by `nextOccurrence` used to model the query ordering. -/
def sortByNext : List Series → List Series
  | [] => []
  | s :: ss => insertByNext s (sortByNext ss)


/-- The due filter of `getDueRecurringTransactions`. -/
def isDue (target : Date) (s : Series) : Bool :=
  s.isActive && Date.le s.nextOccurrence target &&
    (match s.endDate with
     | none => true
     | some e => Date.le target e)


/-- `RecurringTransactionModel.getDueRecurringTransactions`. -/
def getDueRecurringTransactions (st : Store) (target : Date) : List Series :=
  sortByNext (st.seriesList.filter (isDue target))


/-- The fields of `CreateTransactionInput` (the entry id is assigned by the
store). -/
structure CreateTxInput where
  userId : Nat
  categoryId : Nat
  amount : Int
  type : TxType
  description : Option String
  date : Date
  recurringTransactionId : Option Nat
  isOverride : Bool
deriving Repr


/-- `TransactionModel.createTransaction`: fails (foreign-key violation) when
the referenced category does not exist, otherwise appends a fresh entry. -/
def createTransaction (st : Store) (c : CreateTxInput) : Except String Store :=
  if st.cats.contains c.categoryId then
    .ok { st with
          txs := st.txs ++
            [⟨st.nextTxId, c.userId, c.categoryId, c.amount, c.type, c.description,
              c.date, c.recurringTransactionId, c.isOverride⟩],
          nextTxId := st.nextTxId + 1 }
  else
    .error "foreign key violation: category not found"


/-- `TransactionModel.updateTransaction` restricted to the full field set the
series editor passes (it always supplies every field of `transactionData`). -/
def updateTransactionFull (st : Store) (i : Nat) (c : CreateTxInput) : Store :=
  { st with txs := st.txs.map (fun t =>
      if t.id == i then
        ⟨t.id, c.userId, c.categoryId, c.amount, c.type, c.description,
         c.date, c.recurringTransactionId, c.isOverride⟩
      else t) }


/-- `TransactionModel.deleteTransaction`. -/
def deleteTransaction (st : Store) (i : Nat) : Store :=
  { st with txs := st.txs.filter (fun t => !(t.id == i)) }


end Store


/-! ## Scoped edit and delete (SeriesEditor / SeriesDeleter) -/

/-- The closed scope variant (`EditScope` / `DeleteScope` of the source). -/
inductive Scope
  | single
  | future
  | all
deriving DecidableEq, Repr


/-- The partial update record accepted by `editRecurringTransaction`. -/
structure EditUpdates where
  categoryId : Option Nat := none
  amount : Option Int := none
  type : Option TxType := none
  description : Option (Option String) := none
  frequency : Option Frequency := none
  endDate : Option (Option Date) := none
  isActive : Option Bool := none
deriving Repr


/-- The source's `updates.endDate || null` (a JS `||`, collapsing both
`undefined` and `null` to `null`). -/
def collapseEndDate (u : Option (Option Date)) : Option Date :=
  match u with
  | some (some e) => some e
  | _ => none


/-- The find-by-day lookup both scoped operations use for `single` scope:
first entry of the series' user on the effective day referencing the series. -/
def findTxOnDay (st : Store) (userId : Nat) (d : Date) (rid : Nat) : Option Entry :=
  st.txs.find? (fun t =>
    t.userId == userId && t.date == d && t.recurringTransactionId == some rid)


/-- `editRecurringTransaction` of the source.  The date-string parsing is
dropped (dates are passed as calendar triples); validation precedes every
write, so the erroring branches return the store unchanged, exactly as a
thrown error before any mutation.  The result carries the returned
recurring row and, for `future` scope, the newly created one. -/
def editRecurringTransaction (st : Store) (rid : Nat) (effectiveDate : Date)
    (scope : Scope) (u : EditUpdates) :
    Store × Except String (Series × Option Series) :=
  match Store.getRecurringTransactionById st rid with
  | none => (st, .error "Recurring transaction not found")
  | some existing =>
    if Date.lt effectiveDate existing.startDate then
      (st, .error "Effective date cannot be before the recurring transaction start date")
    else if (match existing.endDate with
             | some e => Date.lt e effectiveDate
             | none => false) then
      (st, .error "Effective date cannot be after the recurring transaction end date")
    else
      match scope with
      | .single =>
        let txData : Store.CreateTxInput :=
          { userId := existing.userId
            categoryId := u.categoryId.getD existing.categoryId
            amount := u.amount.getD existing.amount
            type := u.type.getD existing.type
            description := u.description.getD existing.description
            date := effectiveDate
            recurringTransactionId := some rid
            isOverride := true }
        match findTxOnDay st existing.userId effectiveDate rid with
        | some t => (Store.updateTransactionFull st t.id txData, .ok (existing, none))
        | none =>
          match Store.createTransaction st txData with
          | .ok st1 => (st1, .ok (existing, none))
          | .error e => (st, .error e)
      | .future =>
        let previousDay := getPreviousDay effectiveDate
        let st1 := Store.updateRecurringTransaction st rid { endDate := some (some previousDay) }
        let newFrequency := u.frequency.getD existing.frequency
        let newNextOccurrence := calculateNextOccurrence effectiveDate newFrequency
        let created := Store.createRecurringTransaction st1
          { userId := existing.userId
            categoryId := u.categoryId.getD existing.categoryId
            amount := u.amount.getD existing.amount
            type := u.type.getD existing.type
            description := u.description.getD existing.description
            frequency := newFrequency
            startDate := effectiveDate
            endDate := collapseEndDate u.endDate
            nextOccurrence := newNextOccurrence
            isActive := u.isActive.getD existing.isActive }
        let updatedOriginal :=
          (Store.getRecurringTransactionById created.1 rid).getD existing
        (created.1, .ok (updatedOriginal, some created.2))
      | .all =>
        let upd : Store.RecUpdate :=
          { categoryId := u.categoryId
            amount := u.amount
            type := u.type
            description := u.description
            frequency := u.frequency
            nextOccurrence :=
              match u.frequency with
              | some f => some (calculateNextOccurrence existing.nextOccurrence f)
              | none => none
            endDate := u.endDate
            isActive := u.isActive }
        let st1 := Store.updateRecurringTransaction st rid upd
        ((st1), .ok ((Store.getRecurringTransactionById st1 rid).getD existing, none))


/-- `deleteRecurringTransaction` of the source (the scoped service function).
Returns whether the series row itself was deleted. -/
def deleteRecurringTransaction (st : Store) (rid : Nat) (effectiveDate : Date)
    (scope : Scope) : Store × Except String Bool :=
  match Store.getRecurringTransactionById st rid with
  | none => (st, .error "Recurring transaction not found")
  | some existing =>
    if Date.lt effectiveDate existing.startDate then
      (st, .error "Effective date cannot be before the recurring transaction start date")
    else if (match existing.endDate with
             | some e => Date.lt e effectiveDate
             | none => false) then
      (st, .error "Effective date cannot be after the recurring transaction end date")
    else
      match scope with
      | .single =>
        match findTxOnDay st existing.userId effectiveDate rid with
        | some t => (Store.deleteTransaction st t.id, .ok false)
        | none => (st, .ok false)
      | .future =>
        let previousDay := getPreviousDay effectiveDate
        (Store.updateRecurringTransaction st rid { endDate := some (some previousDay) }, .ok false)
      | .all =>
        (Store.deleteRecurringTransaction st rid, .ok true)


/-! ## Generation engine -/

/-- The result record of `processDateForRecurring`. -/
structure ProcResult where
  created : Bool
  skipped : Bool
  nextOccurrence : Option Date
deriving DecidableEq, Repr


/-- Override lookup of `processDateForRecurring`. -/
def findOverride (st : Store) (s : Series) (d : Date) : Option Entry :=
  st.txs.find? (fun t =>
    t.userId == s.userId && t.date == d &&
      t.recurringTransactionId == some s.id && t.isOverride)


/-- Existing-entry lookup of `processDateForRecurring` (idempotency check). -/
def findExisting (st : Store) (s : Series) (d : Date) : Option Entry :=
  st.txs.find? (fun t =>
    t.userId == s.userId && t.date == d && t.recurringTransactionId == some s.id)


/-- `processDateForRecurring` of the source: materialize one date of one
series, skipping invalid dates, overrides, and already-generated entries and
catching entry-creation failures. -/
def processDateForRecurring (st : Store) (s : Series) (d : Date) :
    Store × ProcResult :=
  if !isDateValidOccurrence d (seriesShape s) then
    (st, ⟨false, true, findNextValidOccurrence d (seriesShape s)⟩)
  else
    match findOverride st s d with
    | some _ => (st, ⟨false, true, some (calculateNextOccurrence d s.frequency)⟩)
    | none =>
      match findExisting st s d with
      | some _ => (st, ⟨false, true, some (calculateNextOccurrence d s.frequency)⟩)
      | none =>
        match Store.createTransaction st
          { userId := s.userId
            categoryId := s.categoryId
            amount := s.amount
            type := s.type
            description := s.description
            date := d
            recurringTransactionId := some s.id
            isOverride := false } with
        | .ok st1 => (st1, ⟨true, false, some (calculateNextOccurrence d s.frequency)⟩)
        | .error _ => (st, ⟨false, true, some (calculateNextOccurrence d s.frequency)⟩)


/-- The state a finished catch-up walk leaves behind: the threaded store, the
created/skipped deltas, the last date an entry was created for, the loop's
current date at exit, and the number of dates processed. -/
structure WalkResult where
  store : Store
  created : Nat
  skipped : Nat
  lastProcessed : Option Date
  current : Date
  processed : Nat
deriving Repr


/-- The catch-up loop of `generateTransactionsFromRecurring` for one series:
one recursive step per processed date, with `fuel` the remaining date budget
(`maxCatchUpDays - processedCount`).  Exits when the current date passes the
effective window end, when no further occurrence exists, or when the budget
is exhausted. -/
def walk (s : Series) (rStart : Date) (rEnd : Option Date) (effEnd : Date) :
    Nat → Store → Date → Option Date → Nat → Nat → Nat → WalkResult
  | 0, st, cur, lp, proc, cr, sk => ⟨st, cr, sk, lp, cur, proc⟩
  | fuel + 1, st, cur, lp, proc, cr, sk =>
    if !Date.le cur effEnd then ⟨st, cr, sk, lp, cur, proc⟩
    else if (match rEnd with | some e => Date.lt e cur | none => false) then
      ⟨st, cr, sk, lp, cur, proc⟩
    else
      let cur1 := if Date.lt cur rStart then rStart else cur
      match processDateForRecurring st s cur1 with
      | (st2, res) =>
        match res.nextOccurrence with
        | none =>
            ⟨st2, if res.created then cr + 1 else cr,
             if res.created then sk else sk + 1,
             if res.created then some cur1 else lp, cur1, proc⟩
        | some nxt =>
            match nxt with
            | ⟨ny, nm, nd⟩ =>
              walk s rStart rEnd effEnd fuel st2 ⟨ny, nm, nd⟩
                (if res.created then some cur1 else lp) (proc + 1)
                (if res.created then cr + 1 else cr)
                (if res.created then sk else sk + 1)


/-- The pointer value the source persists after the walk (`nextOccurrenceToStore`):
the next valid date after the last created date, else a re-validated current
date, else (when nothing was processed and the current date moved) the same,
else nothing. -/
def nextOccurrenceToStore (s : Series) (rStart : Date) (rEnd : Option Date)
    (effEnd : Date) (w : WalkResult) : Option Date :=
  let shape : RecShape := ⟨rStart, rEnd, s.frequency⟩
  match w.lastProcessed with
  | some lp =>
    let calculatedNext := calculateNextOccurrence lp s.frequency
    if isDateValidOccurrence calculatedNext shape then some calculatedNext
    else findNextValidOccurrence calculatedNext shape
  | none =>
    if 0 < w.processed then
      (if isDateValidOccurrence w.current shape then some w.current
       else findNextValidOccurrence w.current shape)
    else if Date.le w.current effEnd then
      (if w.current == s.nextOccurrence then none
       else if isDateValidOccurrence w.current shape then some w.current
       else findNextValidOccurrence w.current shape)
    else none


/-- The effective end of a series' catch-up window: the earlier of the series
end date and the target date. -/


def effectiveEnd (rEnd : Option Date) (target : Date) : Date :=
  match rEnd with
  | some e => if Date.lt e target then e else target
  | none => target


/-- The walk over one series starting from a validated date, followed by the
persistence of the re-validated pointer (`nextOccurrenceToStore`). -/
def runWalkStore (s : Series) (target : Date) (maxCatchUpDays : Nat)
    (st0 : Store) (cur0 : Date) : Store × Nat × Nat :=
  match walk s s.startDate s.endDate (effectiveEnd s.endDate target)
      maxCatchUpDays st0 cur0 none 0 0 0 with
  | ⟨wst, wcr, wsk, wlp, wcur, wproc⟩ =>
    match nextOccurrenceToStore s s.startDate s.endDate
        (effectiveEnd s.endDate target) ⟨wst, wcr, wsk, wlp, wcur, wproc⟩ with
    | some v =>
      (Store.updateRecurringTransaction wst s.id { nextOccurrence := some v },
       wcr, wsk)
    | none => (wst, wcr, wsk)


/-- Processing of one due series inside `generateTransactionsFromRecurring`:
the body of the `for` loop.  Returns the new store and the series'
created/skipped contributions. -/
def generateOne (st : Store) (target : Date) (maxCatchUpDays : Nat)
    (s : Series) : Store × Nat × Nat :=
  if !s.isActive then (st, 0, 1)
  else
    let effEnd := effectiveEnd s.endDate target
    if !Date.le s.nextOccurrence effEnd then (st, 0, 1)
    else if isDateValidOccurrence s.nextOccurrence (seriesShape s) then
      runWalkStore s target maxCatchUpDays st s.nextOccurrence
    else
      match findNextValidOccurrence s.nextOccurrence (seriesShape s) with
      | none =>
        (Store.updateRecurringTransaction st s.id
          { nextOccurrence := some (calculateNextOccurrence s.nextOccurrence s.frequency) },
         0, 1)
      | some nextValid =>
        if Date.lt effEnd nextValid then
          (Store.updateRecurringTransaction st s.id
            { nextOccurrence := some (calculateNextOccurrence s.nextOccurrence s.frequency) },
           0, 1)
        else runWalkStore s target maxCatchUpDays st nextValid


/-- `generateTransactionsFromRecurring` of the source: catch-up generation
over every due series, returning the store and the aggregate
`{ created, skipped }` counts.  The target date is passed as a calendar
triple (the source's string parsing and formatting round-trip). -/
def generateTransactionsFromRecurring (st : Store) (target : Date)
    (maxCatchUpDays : Nat := 365) : Store × Nat × Nat :=
  let due := Store.getDueRecurringTransactions st target
  due.foldl
    (fun acc s =>
      match generateOne acc.1 target maxCatchUpDays s with
      | (st2, c2, k2) => (st2, acc.2.1 + c2, acc.2.2 + k2))
    (st, 0, 0)


/-! ## Claim C9: bounded search characterization -/

/-- `n`-fold application of the calendar advance. -/
def advIter (f : Frequency) : Nat → Date → Date
  | 0, d => d
  | n + 1, d => advIter f n (calculateNextOccurrence d f)


/-- The clamp applied to the search's starting date (`if checkDate < startDate,
start from startDate`). -/
def clampToStart (c : Date) (r : RecShape) : Date :=
  if Date.lt c r.startDate then r.startDate else c


/-- The result `v` is the first valid occurrence in the advance orbit of `c`,
found at an index below the iteration bound, with every earlier step staying
inside the end date and strictly advancing. -/
def FirstValidAt (r : RecShape) (c : Date) (k : Nat) (v : Date) : Prop :=
  ∃ n, n < k ∧ v = advIter r.frequency n c ∧
    isDateValidOccurrence v r = true ∧
    ∀ m, m < n →
      (isDateValidOccurrence (advIter r.frequency m c) r = false ∧
       afterEnd r (advIter r.frequency (m + 1) c) = false ∧
       Date.lt (advIter r.frequency m c) (advIter r.frequency (m + 1) c) = true)


/-! ## Claim C6: the end-date-not-before-start-date invariant -/

/-- The data-model invariant: `end_date` is either absent or not before
`start_date`. -/
def WindowInv (s : Series) : Prop :=
  ∀ e, s.endDate = some e → Date.le s.startDate e = true


/-- A structurally well-formed calendar date (month 1..12, day within the
month). -/
def Date.Valid (d : Date) : Prop :=
  1 ≤ d.month ∧ d.month ≤ 12 ∧ 1 ≤ d.day ∧ d.day ≤ daysInMonth d.year d.month


/-- Saturation: every valid occurrence on or before the target of every
series already has a matching ledger entry, or the series' category is
dangling so that creation deterministically fails.  This is the state an
untruncated generation run leaves behind. -/
def Saturated (st : Store) (target : Date) : Prop :=
  ∀ s ∈ st.seriesList, ∀ d : Date,
    isDateValidOccurrence d (seriesShape s) = true →
    Date.le d target = true →
    (∃ t, t ∈ st.txs ∧ t.userId = s.userId ∧ t.date = d ∧
       t.recurringTransactionId = some s.id) ∨
    st.cats.contains s.categoryId = false


/-- The per-snapshot form of saturation used through the generation fold. -/
def SatSeries (txs0 : List Entry) (cats0 : List Nat) (target : Date)
    (s : Series) : Prop :=
  ∀ d : Date,
    isDateValidOccurrence d (seriesShape s) = true →
    Date.le d target = true →
    (∃ t, t ∈ txs0 ∧ t.userId = s.userId ∧ t.date = d ∧
       t.recurringTransactionId = some s.id) ∨
    cats0.contains s.categoryId = false


/-! The idempotence counterexample: a daily series neglected for more than
`maxCatchUpDays = 365` occurrences.  The store already holds entries for the
first 365 due dates, so the first run processes exactly 365 dates (all
skipped), hits the catch-up cap, and persists the pointer at day 366; the
second run with the same target then materializes the remaining two dates —
`created = 2`, not `0`. -/

/-- Start date of the counterexample series. -/
def c3Base : Date := ⟨2020, 1, 1⟩


/-- Target date of both generation runs (366 days after the start). -/
def c3Target : Date := ⟨2021, 1, 1⟩


/-- The neglected daily series. -/
def c3Series : Series :=
  ⟨1, 1, 1, 10, .expense, none, .daily, c3Base, none, c3Base, true⟩


/-- One pre-existing generated entry per day for the first 365 days. -/
def c3Entry (i : Nat) : Entry :=
  ⟨i, 1, 1, 10, .expense, none, addDaysD i c3Base, some 1, false⟩


/-- The store before the first run. -/
def c3Store : Store :=
  ⟨[c3Series], (List.range 365).map c3Entry, [1], 365, 2⟩


/-- The series row after the first run: pointer persisted at 2020-12-31. -/
def c3Series1 : Series :=
  ⟨1, 1, 1, 10, .expense, none, .daily, c3Base, none, ⟨2020, 12, 31⟩, true⟩


/-- The store after the first run. -/
def c3Store1 : Store :=
  ⟨[c3Series1], (List.range 365).map c3Entry, [1], 365, 2⟩


/-- The entry the second run creates for 2020-12-31. -/
def c3E365 : Entry := ⟨365, 1, 1, 10, .expense, none, ⟨2020, 12, 31⟩, some 1, false⟩


/-- The entry the second run creates for 2021-01-01. -/
def c3E366 : Entry := ⟨366, 1, 1, 10, .expense, none, c3Target, some 1, false⟩


/-- The store threaded through the second run after its first creation. -/
def c3Store2 : Store :=
  ⟨[c3Series1], (List.range 365).map c3Entry ++ [c3E365], [1], 366, 2⟩


/-- The store threaded through the second run after its second creation. -/
def c3Store3 : Store :=
  ⟨[c3Series1], ((List.range 365).map c3Entry ++ [c3E365]) ++ [c3E366], [1], 367, 2⟩


/-! ## Order lemmas for dates -/

theorem Date.lt_iff {a b : Date} :
    Date.lt a b = true ↔
      (a.year < b.year ∨ (a.year = b.year ∧
        (a.month < b.month ∨ (a.month = b.month ∧ a.day < b.day)))) := by
  simp [Date.lt]


theorem Date.eq_iff {a b : Date} :
    (a == b) = true ↔ (a.year = b.year ∧ a.month = b.month ∧ a.day = b.day) := by
  cases a; cases b
  simp [Date.mk.injEq]


theorem Date.le_iff {a b : Date} :
    Date.le a b = true ↔
      (a.year < b.year ∨ (a.year = b.year ∧
        (a.month < b.month ∨ (a.month = b.month ∧ a.day ≤ b.day)))) := by
  rw [Date.le, Bool.or_eq_true, Date.lt_iff, Date.eq_iff]
  omega


theorem Date.not_lt {a b : Date} : Date.lt a b = false ↔ Date.le b a = true := by
  rw [Bool.eq_false_iff, Ne, Date.lt_iff, Date.le_iff]
  omega


theorem Date.not_le {a b : Date} : Date.le a b = false ↔ Date.lt b a = true := by
  rw [Bool.eq_false_iff, Ne, Date.le_iff, Date.lt_iff]
  omega


theorem Date.le_refl (a : Date) : Date.le a a = true := by
  rw [Date.le_iff]; omega


theorem Date.lt_irrefl (a : Date) : Date.lt a a = false := by
  rw [Bool.eq_false_iff, Ne, Date.lt_iff]; omega


theorem Date.lt_trans {a b c : Date} (h1 : Date.lt a b = true)
    (h2 : Date.lt b c = true) : Date.lt a c = true := by
  rw [Date.lt_iff] at h1 h2 ⊢; omega


theorem Date.le_trans {a b c : Date} (h1 : Date.le a b = true)
    (h2 : Date.le b c = true) : Date.le a c = true := by
  rw [Date.le_iff] at h1 h2 ⊢; omega


theorem Date.lt_of_le_of_lt {a b c : Date} (h1 : Date.le a b = true)
    (h2 : Date.lt b c = true) : Date.lt a c = true := by
  rw [Date.le_iff] at h1; rw [Date.lt_iff] at h2 ⊢; omega


theorem Date.lt_of_lt_of_le {a b c : Date} (h1 : Date.lt a b = true)
    (h2 : Date.le b c = true) : Date.lt a c = true := by
  rw [Date.lt_iff] at h1 ⊢; rw [Date.le_iff] at h2; omega


theorem Date.le_of_lt {a b : Date} (h : Date.lt a b = true) : Date.le a b = true := by
  rw [Date.lt_iff] at h; rw [Date.le_iff]; omega


theorem Date.le_antisymm {a b : Date} (h1 : Date.le a b = true)
    (h2 : Date.le b a = true) : a = b := by
  cases a; cases b
  rw [Date.le_iff] at h1 h2
  dsimp only at h1 h2
  congr 1 <;> omega


theorem Date.ne_of_lt {a b : Date} (h : Date.lt a b = true) : a ≠ b := by
  intro he; subst he; rw [Date.lt_irrefl] at h; exact Bool.false_ne_true h


/-- One day forward is strictly later. -/
theorem nextDayD_lt (d : Date) : Date.lt d (nextDayD d) = true := by
  unfold nextDayD
  split
  · rw [Date.lt_iff]; dsimp only; omega
  · split
    · rw [Date.lt_iff]; dsimp only; omega
    · rw [Date.lt_iff]; dsimp only; omega


/-- `n` extra days never move a date earlier. -/
theorem addDaysD_le (n : Nat) (d : Date) : Date.le d (addDaysD n d) = true := by
  induction n generalizing d with
  | zero => exact Date.le_refl d
  | succ k ih =>
      have h1 := nextDayD_lt d
      have h2 := ih (nextDayD d)
      exact Date.le_trans (Date.le_of_lt h1) h2


/-- A positive number of extra days moves a date strictly later. -/
theorem addDaysD_lt_of_pos {n : Nat} (hn : 0 < n) (d : Date) :
    Date.lt d (addDaysD n d) = true := by
  cases n with
  | zero => omega
  | succ k =>
      have h1 := nextDayD_lt d
      have h2 := addDaysD_le k (nextDayD d)
      exact Date.lt_of_lt_of_le h1 h2


/-- One month forward (JS rollover semantics) is strictly later. -/
theorem addMonthJS_lt (d : Date) : Date.lt d (addMonthJS d) = true := by
  unfold addMonthJS
  by_cases h12 : d.month = 12 <;>
    simp only [h12, beq_self_eq_true, if_true, beq_iff_eq, if_neg, reduceIte] <;>
    split <;>
    (try split) <;>
    (rw [Date.lt_iff]; dsimp only; omega)


/-- One year forward (JS rollover semantics) is strictly later. -/
theorem addYearJS_lt (d : Date) : Date.lt d (addYearJS d) = true := by
  unfold addYearJS
  split <;> (rw [Date.lt_iff]; dsimp only; omega)


/-- Every calendar advance is strictly increasing. -/
theorem calculateNextOccurrence_lt (d : Date) (f : Frequency) :
    Date.lt d (calculateNextOccurrence d f) = true := by
  cases f with
  | daily => exact nextDayD_lt d
  | weekly => exact addDaysD_lt_of_pos (by omega) d
  | monthly => exact addMonthJS_lt d
  | yearly => exact addYearJS_lt d


/-- A valid occurrence lies inside the series window. -/
theorem isDateValidOccurrence_range {d : Date} {r : RecShape}
    (h : isDateValidOccurrence d r = true) :
    Date.le r.startDate d = true ∧ afterEnd r d = false := by
  unfold isDateValidOccurrence at h
  by_cases hlt : Date.lt d r.startDate = true
  · simp [hlt] at h
  · have hlt2 : Date.lt d r.startDate = false := Bool.eq_false_iff.mpr hlt
    by_cases hend : afterEnd r d = true
    · simp [hlt2, hend] at h
    · exact ⟨Date.not_lt.mp hlt2, Bool.eq_false_iff.mpr hend⟩


/-! ## Claim C4: monthly validity with day clamping -/

/-- C4.  For a monthly series whose start day exceeds 28, a date inside the
series window is a valid occurrence exactly when its day-of-month is the
start day clamped to the length of the date's month.  -/
theorem monthly_validity_clamped (s : Series) (d : Date)
    (hf : s.frequency = Frequency.monthly)
    (hday : 28 < s.startDate.day)
    (hin1 : Date.le s.startDate d = true)
    (hin2 : ∀ e, s.endDate = some e → Date.le d e = true) :
    isDateValidOccurrence d (seriesShape s) = true ↔
      d.day = min s.startDate.day (daysInMonth d.year d.month) := by
  have hlt : Date.lt d s.startDate = false := Date.not_lt.mpr hin1
  have hend : (match s.endDate with
               | some e => Date.lt e d
               | none => false) = false := by
    cases he : s.endDate with
    | none => rfl
    | some e => exact Date.not_lt.mpr (hin2 e he)
  simp only [seriesShape, hf]
  unfold isDateValidOccurrence afterEnd
  dsimp only
  simp only [hlt, hend, Bool.false_eq_true, if_false]
  simp [hday]


/-- Concrete instantiation of `monthly_validity_clamped`: the monthly series
starting 2024-01-31 has its February 2024 occurrence on Feb 29 and its
February 2025 occurrence on Feb 28. -/
theorem monthly_validity_clamped_witness :
    isDateValidOccurrence ⟨2024, 2, 29⟩
        (seriesShape ⟨1, 1, 1, 10, .expense, none, .monthly, ⟨2024, 1, 31⟩, none, ⟨2024, 1, 31⟩, true⟩) = true ∧
    isDateValidOccurrence ⟨2025, 2, 28⟩
        (seriesShape ⟨1, 1, 1, 10, .expense, none, .monthly, ⟨2024, 1, 31⟩, none, ⟨2024, 1, 31⟩, true⟩) = true := by
  constructor
  · exact (monthly_validity_clamped _ ⟨2024, 2, 29⟩ rfl (by decide) (by decide)
      (by intro e he; cases he)).mpr (by decide)
  · exact (monthly_validity_clamped _ ⟨2025, 2, 28⟩ rfl (by decide) (by decide)
      (by intro e he; cases he)).mpr (by decide)


/-! ## Claim C5: yearly validity and the Feb-29 leap rule -/

/-- C5.  For a yearly series, a date inside the window is valid exactly when:
for a Feb-29 start, it is Feb 29 of a leap year or Feb 28 of a non-leap
year; for any other start, it has exactly the start's month and day. -/
theorem yearly_validity_leap_rule (s : Series) (d : Date)
    (hf : s.frequency = Frequency.yearly)
    (hin1 : Date.le s.startDate d = true)
    (hin2 : ∀ e, s.endDate = some e → Date.le d e = true) :
    ((s.startDate.month = 2 ∧ s.startDate.day = 29) →
      (isDateValidOccurrence d (seriesShape s) = true ↔
        (d.month = 2 ∧ ((isLeap d.year = true ∧ d.day = 29) ∨
                        (isLeap d.year = false ∧ d.day = 28))))) ∧
    (¬ (s.startDate.month = 2 ∧ s.startDate.day = 29) →
      (isDateValidOccurrence d (seriesShape s) = true ↔
        (d.month = s.startDate.month ∧ d.day = s.startDate.day))) := by
  have hlt : Date.lt d s.startDate = false := Date.not_lt.mpr hin1
  have hend : (match s.endDate with
               | some e => Date.lt e d
               | none => false) = false := by
    cases he : s.endDate with
    | none => rfl
    | some e => exact Date.not_lt.mpr (hin2 e he)
  simp only [seriesShape, hf]
  unfold isDateValidOccurrence afterEnd
  dsimp only
  simp only [hlt, hend, Bool.false_eq_true, if_false]
  constructor
  · rintro ⟨h2, h29⟩
    simp only [h2, h29, beq_self_eq_true, Bool.and_self, if_true]
    by_cases hm : d.month = 2
    · simp only [hm, beq_self_eq_true, if_true]
      cases hl : isLeap d.year <;> simp
    · have : (d.month == 2) = false := by simp [hm]
      simp [this, hm]
  · intro hne
    have : (s.startDate.month == 2 && s.startDate.day == 29) = false := by
      rcases Decidable.not_and_iff_or_not.mp hne with h | h <;> simp [h]
    simp [this]


/-- Concrete instantiation of `yearly_validity_leap_rule`: the yearly series
starting 2024-02-29 has its 2025 occurrence on Feb 28 and its 2028 occurrence
on Feb 29. -/
theorem yearly_validity_leap_rule_witness :
    isDateValidOccurrence ⟨2025, 2, 28⟩
        (seriesShape ⟨1, 1, 1, 10, .expense, none, .yearly, ⟨2024, 2, 29⟩, none, ⟨2024, 2, 29⟩, true⟩) = true ∧
    isDateValidOccurrence ⟨2028, 2, 29⟩
        (seriesShape ⟨1, 1, 1, 10, .expense, none, .yearly, ⟨2024, 2, 29⟩, none, ⟨2024, 2, 29⟩, true⟩) = true := by
  constructor
  · exact ((yearly_validity_leap_rule _ ⟨2025, 2, 28⟩ rfl (by decide)
      (by intro e he; cases he)).1 (by constructor <;> rfl)).mpr (by decide)
  · exact ((yearly_validity_leap_rule _ ⟨2028, 2, 29⟩ rfl (by decide)
      (by intro e he; cases he)).1 (by constructor <;> rfl)).mpr (by decide)


theorem advIter_zero (f : Frequency) (d : Date) : advIter f 0 d = d := rfl


theorem advIter_one (f : Frequency) (d : Date) :
    advIter f 1 d = calculateNextOccurrence d f := rfl


theorem advIter_succ (f : Frequency) (n : Nat) (d : Date) :
    advIter f (n + 1) d = advIter f n (calculateNextOccurrence d f) := rfl


theorem findNextGo_eq_some_iff (r : RecShape) (fuel : Nat) (c v : Date) :
    findNextGo r fuel c = some v ↔ FirstValidAt r c fuel v := by
  induction fuel generalizing c with
  | zero =>
      simp only [findNextGo, FirstValidAt]
      constructor
      · intro h; cases h
      · rintro ⟨n, hn, _⟩; omega
  | succ fuel ih =>
      rw [findNextGo]
      by_cases hv : isDateValidOccurrence c r = true
      · simp only [hv, if_true]
        constructor
        · intro h
          cases h
          exact ⟨0, by omega, rfl, hv, by omega⟩
        · rintro ⟨n, hn, hvv, hval, hmin⟩
          cases n with
          | zero => rw [advIter_zero] at hvv; rw [hvv]
          | succ m =>
              have h0 := (hmin 0 (by omega)).1
              rw [advIter_zero] at h0
              rw [h0] at hv
              exact (Bool.false_ne_true hv).elim
      · have hv0 : isDateValidOccurrence c r = false := Bool.eq_false_iff.mpr hv
        simp only [hv0, Bool.false_eq_true, if_false]
        by_cases hend : afterEnd r (calculateNextOccurrence c r.frequency) = true
        · simp only [hend, if_true]
          constructor
          · intro h; cases h
          · rintro ⟨n, hn, hvv, hval, hmin⟩
            cases n with
            | zero =>
                rw [advIter_zero] at hvv; subst hvv
                rw [hv0] at hval; cases hval
            | succ m =>
                have h0 := (hmin 0 (by omega)).2.1
                rw [advIter_one] at h0
                rw [hend] at h0; cases h0
        · have hend0 : afterEnd r (calculateNextOccurrence c r.frequency) = false :=
            Bool.eq_false_iff.mpr hend
          simp only [hend0, Bool.false_eq_true, if_false]
          by_cases hstuck : Date.le (calculateNextOccurrence c r.frequency) c = true
          · simp only [hstuck, if_true]
            constructor
            · intro h; cases h
            · rintro ⟨n, hn, hvv, hval, hmin⟩
              cases n with
              | zero =>
                  rw [advIter_zero] at hvv; subst hvv
                  rw [hv0] at hval; cases hval
              | succ m =>
                  have h0 := (hmin 0 (by omega)).2.2
                  rw [advIter_zero, advIter_one] at h0
                  rw [Date.not_le.mpr h0] at hstuck; cases hstuck
          · have hstuck0 : Date.le (calculateNextOccurrence c r.frequency) c = false :=
              Bool.eq_false_iff.mpr hstuck
            simp only [hstuck0, Bool.false_eq_true, if_false]
            rw [ih]
            unfold FirstValidAt
            constructor
            · rintro ⟨n, hn, hvv, hval, hmin⟩
              refine ⟨n + 1, by omega, ?_, hval, ?_⟩
              · rw [advIter_succ]; exact hvv
              · intro m hm
                cases m with
                | zero =>
                    refine ⟨by rw [advIter_zero]; exact hv0, ?_, ?_⟩
                    · rw [advIter_one]; exact hend0
                    · rw [advIter_zero, advIter_one]
                      exact Date.not_le.mp hstuck0
                | succ m2 =>
                    exact hmin m2 (by omega)
            · rintro ⟨n, hn, hvv, hval, hmin⟩
              cases n with
              | zero =>
                  rw [advIter_zero] at hvv; subst hvv
                  rw [hv0] at hval; cases hval
              | succ n2 =>
                  refine ⟨n2, by omega, ?_, hval, ?_⟩
                  · rw [advIter_succ] at hvv; exact hvv
                  · intro m hm
                    exact hmin (m + 1) (by omega)


/-- C9.  `findNextValidOccurrence` always terminates with an optional date and
never errs: it returns `some v` exactly when `v` is the first valid
occurrence reached by iterating the calendar advance from the input date
clamped up to the start date — found within `maxIterations` steps, without
crossing the end date and with every step advancing — and `none` exactly
otherwise (window already exhausted at the clamped start, end date
exceeded, stuck date, or iteration bound reached). -/
theorem findNextValidOccurrence_characterization (c : Date) (r : RecShape)
    (k : Nat) (v : Date) :
    (findNextValidOccurrence c r k = some v ↔
      (afterEnd r (clampToStart c r) = false ∧ FirstValidAt r (clampToStart c r) k v)) ∧
    (findNextValidOccurrence c r k = none ↔
      ¬ (afterEnd r (clampToStart c r) = false ∧
         ∃ w, FirstValidAt r (clampToStart c r) k w)) := by
  have hmain : ∀ w, findNextValidOccurrence c r k = some w ↔
      (afterEnd r (clampToStart c r) = false ∧ FirstValidAt r (clampToStart c r) k w) := by
    intro w
    unfold findNextValidOccurrence clampToStart
    by_cases he : afterEnd r (if Date.lt c r.startDate then r.startDate else c) = true
    · simp only [he, if_true]
      constructor
      · intro h; cases h
      · rintro ⟨hcontra, _⟩
        cases hcontra
    · have he0 : afterEnd r (if Date.lt c r.startDate then r.startDate else c) = false :=
        Bool.eq_false_iff.mpr he
      simp only [he0, Bool.false_eq_true, if_false]
      rw [findNextGo_eq_some_iff]
      tauto
  refine ⟨hmain v, ?_⟩
  cases h : findNextValidOccurrence c r k with
  | some w =>
      constructor
      · intro hcontra; cases hcontra
      · intro hcontra
        exact (hcontra ⟨((hmain w).mp h).1, w, ((hmain w).mp h).2⟩).elim
  | none =>
      simp only [true_iff]
      rintro ⟨hend, w, hfv⟩
      have := (hmain w).mpr ⟨hend, hfv⟩
      rw [h] at this; cases this


/-! ## Claim C10: scoped delete semantics -/

/-- C10.  For an existing series and an effective date inside its window, the
scoped delete reports `deleted = true` exactly for the `all` scope; for
`single` and `future` it reports `deleted = false` and the series row is
still present, and for `single` the series collection is untouched and at
most one entry — one at (series, effective date) for the series' user — is
removed. -/
theorem delete_scope_semantics (st : Store) (rid : Nat) (eff : Date)
    (scope : Scope) (ex : Series)
    (hids : List.Pairwise (fun a b : Entry => a.id ≠ b.id) st.txs)
    (hex : Store.getRecurringTransactionById st rid = some ex)
    (h1 : Date.lt eff ex.startDate = false)
    (h2 : ∀ e, ex.endDate = some e → Date.lt e eff = false) :
    ((deleteRecurringTransaction st rid eff scope).2 = Except.ok true ↔
        scope = Scope.all) ∧
    (scope ≠ Scope.all →
        (deleteRecurringTransaction st rid eff scope).2 = Except.ok false ∧
        ∃ r, r ∈ (deleteRecurringTransaction st rid eff scope).1.seriesList ∧
          r.id = rid) ∧
    (scope = Scope.single →
        (deleteRecurringTransaction st rid eff scope).1.seriesList = st.seriesList ∧
        (∀ t, t ∈ st.txs → t ∉ (deleteRecurringTransaction st rid eff scope).1.txs →
          (t.userId = ex.userId ∧ t.date = eff ∧ t.recurringTransactionId = some rid)) ∧
        (∀ t1 t2, t1 ∈ st.txs → t2 ∈ st.txs →
          t1 ∉ (deleteRecurringTransaction st rid eff scope).1.txs →
          t2 ∉ (deleteRecurringTransaction st rid eff scope).1.txs → t1 = t2)) := by
  have hend : (match ex.endDate with
               | some e => Date.lt e eff
               | none => false) = false := by
    cases he : ex.endDate with
    | none => rfl
    | some e => exact h2 e he
  have hexid : ex.id = rid := by
    have := List.find?_some hex
    simpa using this
  have hexmem : ex ∈ st.seriesList := List.mem_of_find?_eq_some hex
  unfold deleteRecurringTransaction
  rw [hex]
  simp only [h1, hend, Bool.false_eq_true, if_false]
  cases scope with
  | all =>
      refine ⟨by simp, by simp, by simp⟩
  | future =>
      refine ⟨by simp, fun _ => ⟨rfl, ?_⟩, by simp⟩
      refine ⟨Store.applyRecUpdate { endDate := some (some (getPreviousDay eff)) } ex, ?_, ?_⟩
      · simp only [Store.updateRecurringTransaction]
        have : (ex.id == rid) = true := by simp [hexid]
        refine List.mem_map.mpr ⟨ex, hexmem, by rw [this]; simp⟩
      · simp [Store.applyRecUpdate, hexid]
  | single =>
      cases hf : findTxOnDay st ex.userId eff rid with
      | none =>
          refine ⟨by simp, fun _ => ⟨rfl, ex, hexmem, hexid⟩, fun _ => ⟨rfl, ?_, ?_⟩⟩
          · intro t ht hnt
            exact absurd ht hnt
          · intro t1 t2 ht1 ht2 hnt1 hnt2
            exact absurd ht1 hnt1
      | some t =>
          have hpred := List.find?_some hf
          have htmem : t ∈ st.txs := List.mem_of_find?_eq_some hf
          simp only [Bool.and_eq_true, beq_iff_eq] at hpred
          refine ⟨by simp, fun _ => ⟨rfl, ex, hexmem, hexid⟩, fun _ => ⟨rfl, ?_, ?_⟩⟩
          · intro u hu hnu
            simp only [Store.deleteTransaction, List.mem_filter, Bool.not_eq_true] at hnu
            have : (u.id == t.id) = true := by
              by_cases hid : (u.id == t.id) = true
              · exact hid
              · exact absurd ⟨hu, by simp [hid]⟩ hnu
            have huid : u.id = t.id := by simpa using this
            have hut : u = t := by
              by_contra hne
              exact (List.Pairwise.forall (fun a b h => Ne.symm h) hids hu htmem hne) huid
            subst hut
            exact ⟨hpred.1.1, hpred.1.2, hpred.2⟩
          · intro t1 t2 ht1 ht2 hnt1 hnt2
            simp only [Store.deleteTransaction, List.mem_filter, Bool.not_eq_true] at hnt1 hnt2
            have e1 : t1.id = t.id := by
              by_cases hid : (t1.id == t.id) = true
              · simpa using hid
              · exact absurd ⟨ht1, by simp [hid]⟩ hnt1
            have e2 : t2.id = t.id := by
              by_cases hid : (t2.id == t.id) = true
              · simpa using hid
              · exact absurd ⟨ht2, by simp [hid]⟩ hnt2
            by_contra hne
            exact (List.Pairwise.forall (fun a b h => Ne.symm h) hids ht1 ht2 hne)
              (e1.trans e2.symm)


/-- Concrete instantiation of `delete_scope_semantics` on a one-series store
(single scope, one matching entry). -/
theorem delete_scope_semantics_witness :
    ((deleteRecurringTransaction
        ⟨[⟨1, 1, 1, 10, .expense, none, .daily, ⟨2026, 1, 1⟩, none, ⟨2026, 1, 1⟩, true⟩],
         [⟨0, 1, 1, 10, .expense, none, ⟨2026, 1, 5⟩, some 1, false⟩], [1], 1, 2⟩
        1 ⟨2026, 1, 5⟩ Scope.single).2 = Except.ok true ↔ Scope.single = Scope.all) := by
  exact (delete_scope_semantics _ 1 ⟨2026, 1, 5⟩ Scope.single _
    (by simp) (by rfl) (by decide) (by intro e he; cases he)).1


/-! ## Claim C7: out-of-window effective dates are rejected before any
mutation -/

/-- C7.  For both the scoped edit and the scoped delete, an effective date
outside `[start_date, end_date]` makes the operation fail with a validation
error while the store — every series row and every ledger entry — is exactly
as before the call, for every scope and update record. -/
theorem out_of_window_rejected (st : Store) (rid : Nat) (eff : Date)
    (scope : Scope) (u : EditUpdates) (ex : Series)
    (hex : Store.getRecurringTransactionById st rid = some ex)
    (hout : Date.lt eff ex.startDate = true ∨
            ∃ e, ex.endDate = some e ∧ Date.lt e eff = true) :
    ((editRecurringTransaction st rid eff scope u).1 = st ∧
      ∃ msg, (editRecurringTransaction st rid eff scope u).2 = Except.error msg) ∧
    ((deleteRecurringTransaction st rid eff scope).1 = st ∧
      ∃ msg, (deleteRecurringTransaction st rid eff scope).2 = Except.error msg) := by
  unfold editRecurringTransaction deleteRecurringTransaction
  rw [hex]
  by_cases hlt : Date.lt eff ex.startDate = true
  · simp only [hlt, if_true]
    exact ⟨⟨by simp, _, rfl⟩, by simp, _, rfl⟩
  · have hlt0 : Date.lt eff ex.startDate = false := Bool.eq_false_iff.mpr hlt
    rcases hout with h | ⟨e, he, hegt⟩
    · exact absurd h hlt
    · simp only [hlt0, Bool.false_eq_true, if_false, he, hegt, if_true]
      exact ⟨⟨by simp, _, rfl⟩, by simp, _, rfl⟩


/-- Concrete instantiation of `out_of_window_rejected`: editing a series
whose window ended before the effective date fails and leaves the store
intact. -/
theorem out_of_window_rejected_witness :
    (editRecurringTransaction
        ⟨[⟨1, 1, 1, 10, .expense, none, .daily, ⟨2026, 1, 1⟩, some ⟨2026, 1, 10⟩, ⟨2026, 1, 1⟩, true⟩],
         [], [1], 1, 2⟩
        1 ⟨2026, 2, 1⟩ Scope.all {}).1 =
      ⟨[⟨1, 1, 1, 10, .expense, none, .daily, ⟨2026, 1, 1⟩, some ⟨2026, 1, 10⟩, ⟨2026, 1, 1⟩, true⟩],
       [], [1], 1, 2⟩ := by
  exact (out_of_window_rejected _ 1 ⟨2026, 2, 1⟩ Scope.all {} _ (by rfl)
    (Or.inr ⟨⟨2026, 1, 10⟩, rfl, by decide⟩)).1.1


/-! ## Claim C8: entry-creation failures are contained -/

/-- C8.  A failing entry-creation attempt (dangling category) for one date of
a series is caught: the date is counted as skipped, the store is untouched,
and the returned next occurrence still advances so the walk continues with
the remaining dates.  Moreover a whole generation run over a store holding a
failing series next to a healthy one returns aggregate counts — the healthy
series' dates are all materialized and the failing series' dates are all
counted as skipped — rather than propagating the error. -/
theorem creation_failure_contained (st : Store) (s : Series) (d : Date)
    (hv : isDateValidOccurrence d (seriesShape s) = true)
    (hov : findOverride st s d = none)
    (hex : findExisting st s d = none)
    (hfail : st.cats.contains s.categoryId = false) :
    processDateForRecurring st s d =
      (st, ⟨false, true, some (calculateNextOccurrence d s.frequency)⟩) ∧
    (generateTransactionsFromRecurring
        ⟨[⟨1, 1, 9, 10, .expense, none, .daily, ⟨2026, 1, 1⟩, some ⟨2026, 1, 3⟩, ⟨2026, 1, 1⟩, true⟩,
          ⟨2, 1, 1, 20, .expense, none, .daily, ⟨2026, 1, 1⟩, some ⟨2026, 1, 3⟩, ⟨2026, 1, 1⟩, true⟩],
         [], [1], 1, 3⟩ ⟨2026, 1, 3⟩ 5).2 = (3, 3) := by
  constructor
  · unfold processDateForRecurring
    rw [hv]
    simp only [Bool.not_true, Bool.false_eq_true, if_false, hov, hex]
    unfold Store.createTransaction
    rw [hfail]
    simp
  · rfl


/-- Concrete instantiation of `creation_failure_contained`: a valid date of a
series whose category is dangling is skipped, with the store unchanged and
the walk continuing at the next day. -/
theorem creation_failure_contained_witness :
    processDateForRecurring
        ⟨[⟨1, 1, 9, 10, .expense, none, .daily, ⟨2026, 1, 1⟩, none, ⟨2026, 1, 1⟩, true⟩], [], [1], 1, 2⟩
        ⟨1, 1, 9, 10, .expense, none, .daily, ⟨2026, 1, 1⟩, none, ⟨2026, 1, 1⟩, true⟩
        ⟨2026, 1, 2⟩ =
      (⟨[⟨1, 1, 9, 10, .expense, none, .daily, ⟨2026, 1, 1⟩, none, ⟨2026, 1, 1⟩, true⟩], [], [1], 1, 2⟩,
       ⟨false, true, some ⟨2026, 1, 3⟩⟩) := by
  have h := (creation_failure_contained
    ⟨[⟨1, 1, 9, 10, .expense, none, .daily, ⟨2026, 1, 1⟩, none, ⟨2026, 1, 1⟩, true⟩], [], [1], 1, 2⟩
    ⟨1, 1, 9, 10, .expense, none, .daily, ⟨2026, 1, 1⟩, none, ⟨2026, 1, 1⟩, true⟩
    ⟨2026, 1, 2⟩ (by decide) (by rfl) (by rfl) (by rfl)).1
  rw [h]
  rfl


/-! ## Claim C1: pointer validity after generation -/

/-- A date returned by the bounded search is a valid occurrence. -/
theorem findNextValidOccurrence_valid {c : Date} {r : RecShape} {k : Nat}
    {v : Date} (h : findNextValidOccurrence c r k = some v) :
    isDateValidOccurrence v r = true := by
  simp only [findNextValidOccurrence] at h
  by_cases hae : afterEnd r (if Date.lt c r.startDate then r.startDate else c) = true
  · rw [if_pos hae] at h; cases h
  · rw [if_neg hae] at h
    obtain ⟨n, _, hvv, hval, _⟩ := (findNextGo_eq_some_iff r k _ v).mp h
    exact hval


/-- A successful entry creation only appends one entry. -/
theorem createTransaction_ok_fields {st : Store} {c : Store.CreateTxInput}
    {st1 : Store} (h : Store.createTransaction st c = Except.ok st1) :
    st1.seriesList = st.seriesList ∧ st1.cats = st.cats ∧
      ∃ e, st1.txs = st.txs ++ [e] := by
  unfold Store.createTransaction at h
  split at h
  · injection h with h1
    subst h1
    exact ⟨rfl, rfl, _, rfl⟩
  · cases h


/-- Materializing one date never touches the series collection. -/
theorem processDateForRecurring_seriesList (st : Store) (s : Series) (d : Date) :
    (processDateForRecurring st s d).1.seriesList = st.seriesList := by
  unfold processDateForRecurring
  split
  · rfl
  · split
    · rfl
    · split
      · rfl
      · split
        · next st1 heq => exact (createTransaction_ok_fields heq).1
        · rfl


/-- Materializing one date never touches the category collection. -/
theorem processDateForRecurring_cats (st : Store) (s : Series) (d : Date) :
    (processDateForRecurring st s d).1.cats = st.cats := by
  unfold processDateForRecurring
  split
  · rfl
  · split
    · rfl
    · split
      · rfl
      · split
        · next st1 heq => exact (createTransaction_ok_fields heq).2.1
        · rfl


/-- The catch-up walk never touches the series collection. -/
theorem walk_seriesList (s : Series) (rStart : Date) (rEnd : Option Date)
    (effEnd : Date) : ∀ (fuel : Nat) (st : Store) (cur : Date)
    (lp : Option Date) (proc cr sk : Nat),
    (walk s rStart rEnd effEnd fuel st cur lp proc cr sk).store.seriesList =
      st.seriesList := by
  intro fuel
  induction fuel with
  | zero => intro st cur lp proc cr sk; rfl
  | succ f ih =>
      intro st cur lp proc cr sk
      rw [walk.eq_def]
      dsimp only
      split
      · rfl
      · split
        · rfl
        · split
          · rw [processDateForRecurring_seriesList]
          · rw [ih, processDateForRecurring_seriesList]


/-- Every pointer the end-of-walk persistence path stores is a valid
occurrence. -/
theorem nextOccurrenceToStore_valid {s : Series} {rStart : Date}
    {rEnd : Option Date} {effEnd : Date} {w : WalkResult} {v : Date}
    (h : nextOccurrenceToStore s rStart rEnd effEnd w = some v) :
    isDateValidOccurrence v ⟨rStart, rEnd, s.frequency⟩ = true := by
  unfold nextOccurrenceToStore at h
  cases hlp : w.lastProcessed with
  | some lp =>
      rw [hlp] at h
      dsimp only at h
      split at h
      · next hval => injection h with h1; rw [h1] at hval; exact hval
      · exact findNextValidOccurrence_valid h
  | none =>
      rw [hlp] at h
      dsimp only at h
      split at h
      · split at h
        · next hval => injection h with h1; rw [h1] at hval; exact hval
        · exact findNextValidOccurrence_valid h
      · split at h
        · split at h
          · cases h
          · split at h
            · next hval => injection h with h1; rw [h1] at hval; exact hval
            · exact findNextValidOccurrence_valid h
        · cases h


/-- A series row in an updated collection is either untouched or the update
applied to a row with the targeted id. -/
theorem mem_updateRecurringTransaction {st : Store} {i : Nat}
    {u : Store.RecUpdate} {r : Series}
    (h : r ∈ (Store.updateRecurringTransaction st i u).seriesList) :
    r ∈ st.seriesList ∨
      ∃ old, old ∈ st.seriesList ∧ old.id = i ∧ r = Store.applyRecUpdate u old := by
  unfold Store.updateRecurringTransaction at h
  obtain ⟨old, hold, heq⟩ := List.mem_map.mp h
  by_cases hid : (old.id == i) = true
  · right
    refine ⟨old, hold, by simpa using hid, ?_⟩
    rw [hid] at heq
    simp at heq
    exact heq.symm
  · left
    have : (old.id == i) = false := Bool.eq_false_iff.mpr hid
    rw [this] at heq
    simp at heq
    rwa [← heq]


theorem applyRecUpdate_id (u : Store.RecUpdate) (s : Series) :
    (Store.applyRecUpdate u s).id = s.id := rfl


/-- After `runWalkStore`, every series row is untouched or carries a valid
pointer for the processed series' shape. -/
theorem runWalkStore_pointer (s : Series) (target : Date) (maxC : Nat)
    (st0 : Store) (cur0 : Date) :
    ∀ r ∈ (runWalkStore s target maxC st0 cur0).1.seriesList,
      r ∈ st0.seriesList ∨
      (r.id = s.id ∧
        isDateValidOccurrence r.nextOccurrence ⟨s.startDate, s.endDate, s.frequency⟩ = true) := by
  intro r hr
  unfold runWalkStore at hr
  dsimp only at hr
  split at hr
  · next v hsome =>
      rcases mem_updateRecurringTransaction hr with h | ⟨old, hold, hid, heq⟩
      · rw [walk_seriesList] at h
        exact Or.inl h
      · rw [walk_seriesList] at hold
        right
        refine ⟨by rw [heq, applyRecUpdate_id]; exact hid, ?_⟩
        have hv := nextOccurrenceToStore_valid hsome
        rw [heq]
        exact hv
  · rw [walk_seriesList] at hr
    exact Or.inl hr


/-- Per-series pointer discipline of the generation loop body: every series
row after `generateOne` is untouched, or carries a pointer that is valid for
the processed series' recurrence shape, or carries the raw calendar advance
of the processed series' stored pointer (the self-healing path). -/
theorem generateOne_pointer (st : Store) (target : Date) (maxC : Nat)
    (s : Series) :
    ∀ r ∈ (generateOne st target maxC s).1.seriesList,
      r ∈ st.seriesList ∨
      (r.id = s.id ∧
        (isDateValidOccurrence r.nextOccurrence ⟨s.startDate, s.endDate, s.frequency⟩ = true ∨
         r.nextOccurrence = calculateNextOccurrence s.nextOccurrence s.frequency)) := by
  intro r hr
  unfold generateOne at hr
  split at hr
  · exact Or.inl hr
  · dsimp only at hr
    split at hr
    · exact Or.inl hr
    · split at hr
      · rcases runWalkStore_pointer s target maxC st s.nextOccurrence r hr with h | ⟨hid, hv⟩
        · exact Or.inl h
        · exact Or.inr ⟨hid, Or.inl hv⟩
      · split at hr
        · rcases mem_updateRecurringTransaction hr with h | ⟨old, hold, hid, heq⟩
          · exact Or.inl h
          · right
            refine ⟨by rw [heq, applyRecUpdate_id]; exact hid, Or.inr ?_⟩
            rw [heq]
            rfl
        · split at hr
          · rcases mem_updateRecurringTransaction hr with h | ⟨old, hold, hid, heq⟩
            · exact Or.inl h
            · right
              refine ⟨by rw [heq, applyRecUpdate_id]; exact hid, Or.inr ?_⟩
              rw [heq]
              rfl
          · rcases runWalkStore_pointer s target maxC st _ r hr with h | ⟨hid, hv⟩
            · exact Or.inl h
            · exact Or.inr ⟨hid, Or.inl hv⟩


/-- The generation fold preserves the per-series pointer discipline across
the whole due list. -/
theorem generate_fold_pointer (target : Date) (maxC : Nat) :
    ∀ (l : List Series) (acc : Store × Nat × Nat),
      ∀ r ∈ (l.foldl
          (fun acc s =>
            match generateOne acc.1 target maxC s with
            | (st2, c2, k2) => (st2, acc.2.1 + c2, acc.2.2 + k2)) acc).1.seriesList,
        r ∈ acc.1.seriesList ∨
        ∃ s, s ∈ l ∧ r.id = s.id ∧
          (isDateValidOccurrence r.nextOccurrence ⟨s.startDate, s.endDate, s.frequency⟩ = true ∨
           r.nextOccurrence = calculateNextOccurrence s.nextOccurrence s.frequency) := by
  intro l
  induction l with
  | nil => intro acc r hr; exact Or.inl hr
  | cons s l ih =>
      intro acc r hr
      rw [List.foldl_cons] at hr
      rcases ih _ r hr with h | ⟨s2, hs2, hrel⟩
      · dsimp only at h
        rcases generateOne_pointer acc.1 target maxC s r h with h2 | ⟨hid, hv⟩
        · exact Or.inl h2
        · exact Or.inr ⟨s, List.mem_cons_self s l, hid, hv⟩
      · exact Or.inr ⟨s2, List.mem_cons_of_mem s hs2, hrel⟩


/-- C1 (amended).  After `generate(targetDate)`, every series row either
still carries its pre-call pointer (row untouched), or carries a pointer
that satisfies `isDateValidOccurrence` for the due series it was stored for,
or — on the self-healing path only — carries the raw calendar-arithmetic
advance of that series' pre-call pointer, which need not be a valid
occurrence. -/
theorem generate_pointer_discipline (st : Store) (target : Date) (maxC : Nat) :
    ∀ r ∈ (generateTransactionsFromRecurring st target maxC).1.seriesList,
      r ∈ st.seriesList ∨
      ∃ s, s ∈ Store.getDueRecurringTransactions st target ∧ r.id = s.id ∧
        (isDateValidOccurrence r.nextOccurrence ⟨s.startDate, s.endDate, s.frequency⟩ = true ∨
         r.nextOccurrence = calculateNextOccurrence s.nextOccurrence s.frequency) := by
  intro r hr
  unfold generateTransactionsFromRecurring at hr
  exact generate_fold_pointer target maxC _ _ r hr


/-- C1 counterexample.  A monthly series starting 2024-01-31 (window closing
2024-02-20) whose stored pointer 2024-02-15 is desynchronized: generation
for 2024-02-18 takes the self-healing path and persists the raw advance
2024-03-15, which is not a valid occurrence — so after `generate()` the
stored `next_occurrence` is neither absent nor valid. -/
theorem generate_pointer_discipline_counterexample :
    ((generateTransactionsFromRecurring
        ⟨[⟨1, 1, 1, 10, .expense, none, .monthly, ⟨2024, 1, 31⟩, some ⟨2024, 2, 20⟩, ⟨2024, 2, 15⟩, true⟩],
         [], [1], 1, 2⟩ ⟨2024, 2, 18⟩).1.seriesList.all
      (fun r => isDateValidOccurrence r.nextOccurrence (seriesShape r))) = false := by
  rfl


/-- Concrete instantiation of `generate_pointer_discipline` on the
counterexample store: the persisted pointer 2024-03-15 is exactly the raw
calendar advance of the desynchronized pointer 2024-02-15. -/
theorem generate_pointer_discipline_witness :
    (⟨1, 1, 1, 10, .expense, none, .monthly, ⟨2024, 1, 31⟩, some ⟨2024, 2, 20⟩, ⟨2024, 3, 15⟩, true⟩ : Series)
        ∈ (⟨[⟨1, 1, 1, 10, .expense, none, .monthly, ⟨2024, 1, 31⟩, some ⟨2024, 2, 20⟩, ⟨2024, 2, 15⟩, true⟩],
            [], [1], 1, 2⟩ : Store).seriesList ∨
      ∃ s, s ∈ Store.getDueRecurringTransactions
            ⟨[⟨1, 1, 1, 10, .expense, none, .monthly, ⟨2024, 1, 31⟩, some ⟨2024, 2, 20⟩, ⟨2024, 2, 15⟩, true⟩],
             [], [1], 1, 2⟩ ⟨2024, 2, 18⟩ ∧
        (⟨1, 1, 1, 10, .expense, none, .monthly, ⟨2024, 1, 31⟩, some ⟨2024, 2, 20⟩, ⟨2024, 3, 15⟩, true⟩ : Series).id = s.id ∧
        (isDateValidOccurrence ⟨2024, 3, 15⟩ ⟨s.startDate, s.endDate, s.frequency⟩ = true ∨
         (⟨2024, 3, 15⟩ : Date) = calculateNextOccurrence s.nextOccurrence s.frequency) := by
  exact generate_pointer_discipline
    ⟨[⟨1, 1, 1, 10, .expense, none, .monthly, ⟨2024, 1, 31⟩, some ⟨2024, 2, 20⟩, ⟨2024, 2, 15⟩, true⟩],
     [], [1], 1, 2⟩ ⟨2024, 2, 18⟩ 365
    ⟨1, 1, 1, 10, .expense, none, .monthly, ⟨2024, 1, 31⟩, some ⟨2024, 2, 20⟩, ⟨2024, 3, 15⟩, true⟩
    (by rw [show (generateTransactionsFromRecurring
        ⟨[⟨1, 1, 1, 10, .expense, none, .monthly, ⟨2024, 1, 31⟩, some ⟨2024, 2, 20⟩, ⟨2024, 2, 15⟩, true⟩],
         [], [1], 1, 2⟩ ⟨2024, 2, 18⟩).1.seriesList =
        [⟨1, 1, 1, 10, .expense, none, .monthly, ⟨2024, 1, 31⟩, some ⟨2024, 2, 20⟩, ⟨2024, 3, 15⟩, true⟩]
        from rfl]
        exact List.mem_singleton.mpr rfl)


theorem daysInMonth_bounds (y m : Nat) :
    28 ≤ daysInMonth y m ∧ daysInMonth y m ≤ 31 := by
  unfold daysInMonth
  split
  · split <;> omega
  · split <;> omega


theorem daysInMonth_12 (y : Nat) : daysInMonth y 12 = 31 := rfl


/-- For well-formed dates, strictly-before means on-or-before the previous
day. -/
theorem le_prevDay_of_lt {a b : Date} (hva : Date.Valid a) (hvb : Date.Valid b)
    (h : Date.lt a b = true) : Date.le a (prevDayD b) = true := by
  obtain ⟨ham1, ham2, had1, had2⟩ := hva
  obtain ⟨hbm1, hbm2, hbd1, hbd2⟩ := hvb
  rw [Date.lt_iff] at h
  unfold prevDayD
  split
  · rw [Date.le_iff]; dsimp only; omega
  · split
    · rw [Date.le_iff]; dsimp only
      have hd := daysInMonth_bounds b.year (b.month - 1)
      by_cases hy : a.year = b.year
      · by_cases hm : a.month = b.month - 1
        · right
          refine ⟨hy, Or.inr ⟨hm, ?_⟩⟩
          have hdim : a.day ≤ daysInMonth a.year a.month := had2
          rw [hy, hm] at hdim
          exact hdim
        · right
          exact ⟨hy, Or.inl (by omega)⟩
      · left; omega
    · rw [Date.le_iff]; dsimp only
      have h31 : daysInMonth a.year 12 = 31 := daysInMonth_12 a.year
      by_cases hy : a.year = b.year - 1
      · right
        refine ⟨hy, ?_⟩
        by_cases hm : a.month = 12
        · right
          refine ⟨hm, ?_⟩
          have : a.day ≤ daysInMonth a.year a.month := had2
          rw [hm, h31] at this
          exact this
        · left; omega
      · omega


/-- Creating a series appends the new row. -/
theorem mem_createRecurringTransaction {st : Store} {c : Store.CreateSeriesInput}
    {r : Series} (h : r ∈ (Store.createRecurringTransaction st c).1.seriesList) :
    r ∈ st.seriesList ∨ r = (Store.createRecurringTransaction st c).2 := by
  unfold Store.createRecurringTransaction at h ⊢
  dsimp only at h ⊢
  rcases List.mem_append.mp h with h1 | h1
  · exact Or.inl h1
  · right
    simpa using h1


theorem applyRecUpdate_startDate (u : Store.RecUpdate) (s : Series) :
    (Store.applyRecUpdate u s).startDate = s.startDate := rfl


theorem applyRecUpdate_endDate (u : Store.RecUpdate) (s : Series) :
    (Store.applyRecUpdate u s).endDate = u.endDate.getD s.endDate := rfl


/-- `runWalkStore` preserves the window invariant of every row. -/
theorem runWalkStore_window (s : Series) (target : Date) (maxC : Nat)
    (st0 : Store) (cur0 : Date)
    (hinv : ∀ r ∈ st0.seriesList, WindowInv r) :
    ∀ r ∈ (runWalkStore s target maxC st0 cur0).1.seriesList, WindowInv r := by
  intro r hr
  unfold runWalkStore at hr
  dsimp only at hr
  split at hr
  · rcases mem_updateRecurringTransaction hr with h | ⟨old, hold, _, heq⟩
    · rw [walk_seriesList] at h
      exact hinv r h
    · rw [walk_seriesList] at hold
      intro e he
      rw [heq, applyRecUpdate_endDate] at he
      rw [heq, applyRecUpdate_startDate]
      exact hinv old hold e he
  · rw [walk_seriesList] at hr
    exact hinv r hr


/-- `generateOne` preserves the window invariant of every row (it only ever
rewrites `next_occurrence`). -/
theorem generateOne_window (st : Store) (target : Date) (maxC : Nat)
    (s : Series) (hinv : ∀ r ∈ st.seriesList, WindowInv r) :
    ∀ r ∈ (generateOne st target maxC s).1.seriesList, WindowInv r := by
  intro r hr
  unfold generateOne at hr
  split at hr
  · exact hinv r hr
  · dsimp only at hr
    split at hr
    · exact hinv r hr
    · split at hr
      · exact runWalkStore_window s target maxC st s.nextOccurrence hinv r hr
      · split at hr
        · rcases mem_updateRecurringTransaction hr with h | ⟨old, hold, _, heq⟩
          · exact hinv r h
          · intro e he
            rw [heq, applyRecUpdate_endDate] at he
            rw [heq, applyRecUpdate_startDate]
            exact hinv old hold e he
        · split at hr
          · rcases mem_updateRecurringTransaction hr with h | ⟨old, hold, _, heq⟩
            · exact hinv r h
            · intro e he
              rw [heq, applyRecUpdate_endDate] at he
              rw [heq, applyRecUpdate_startDate]
              exact hinv old hold e he
          · exact runWalkStore_window s target maxC st _ hinv r hr


/-- The generation fold preserves the window invariant. -/
theorem generate_fold_window (target : Date) (maxC : Nat) :
    ∀ (l : List Series) (acc : Store × Nat × Nat),
      (∀ r ∈ acc.1.seriesList, WindowInv r) →
      ∀ r ∈ (l.foldl
          (fun acc s =>
            match generateOne acc.1 target maxC s with
            | (st2, c2, k2) => (st2, acc.2.1 + c2, acc.2.2 + k2)) acc).1.seriesList,
        WindowInv r := by
  intro l
  induction l with
  | nil => intro acc h r hr; exact h r hr
  | cons s l ih =>
      intro acc h r hr
      rw [List.foldl_cons] at hr
      refine ih _ ?_ r hr
      intro r2 hr2
      dsimp only at hr2
      exact generateOne_window acc.1 target maxC s h r2 hr2


theorem updateTransactionFull_seriesList (st : Store) (i : Nat)
    (c : Store.CreateTxInput) :
    (Store.updateTransactionFull st i c).seriesList = st.seriesList := rfl


/-- C6 (amended).  Scoped edits, scoped deletes and generation preserve the
invariant that `end_date` is absent or not before `start_date` — provided a
future-scope effective date lies strictly after the series' start date (at
`effectiveDate = start_date` both future-scope operations store
`end_date = start_date - 1 day`, violating the invariant), and provided an
explicitly supplied end date (all-scope update, or the end date given to the
future-scope replacement series) is itself not before the relevant start
date. -/
theorem mutations_preserve_window_inv (st : Store) (rid : Nat)
    (eff target : Date) (scope : Scope) (u : EditUpdates) (maxC : Nat)
    (hinv : ∀ r ∈ st.seriesList, WindowInv r)
    (hvstart : ∀ r ∈ st.seriesList, Date.Valid r.startDate)
    (hveff : Date.Valid eff)
    (hfut : scope = Scope.future → ∀ ex, ex ∈ st.seriesList → ex.id = rid →
        Date.lt ex.startDate eff = true)
    (hfutnew : scope = Scope.future → ∀ e, collapseEndDate u.endDate = some e →
        Date.le eff e = true)
    (hall : scope = Scope.all → ∀ ex, ex ∈ st.seriesList → ex.id = rid →
        ∀ e, u.endDate = some (some e) → Date.le ex.startDate e = true) :
    (∀ r ∈ (editRecurringTransaction st rid eff scope u).1.seriesList, WindowInv r) ∧
    (∀ r ∈ (deleteRecurringTransaction st rid eff scope).1.seriesList, WindowInv r) ∧
    (∀ r ∈ (generateTransactionsFromRecurring st target maxC).1.seriesList, WindowInv r) := by
  refine ⟨?_, ?_, ?_⟩
  · -- scoped edit
    intro r hr
    unfold editRecurringTransaction at hr
    cases hex : Store.getRecurringTransactionById st rid with
    | none => rw [hex] at hr; exact hinv r hr
    | some ex =>
        rw [hex] at hr
        dsimp only at hr
        split at hr
        · exact hinv r hr
        · split at hr
          · exact hinv r hr
          · cases scope with
            | single =>
                dsimp only at hr
                split at hr
                · rw [updateTransactionFull_seriesList] at hr
                  exact hinv r hr
                · split at hr
                  · next st1 heq =>
                      rw [(createTransaction_ok_fields heq).1] at hr
                      exact hinv r hr
                  · exact hinv r hr
            | future =>
                dsimp only at hr
                rcases mem_createRecurringTransaction hr with h1 | h1
                · rcases mem_updateRecurringTransaction h1 with h2 | ⟨old, hold, hid, heq⟩
                  · exact hinv r h2
                  · intro e he
                    rw [heq, applyRecUpdate_endDate] at he
                    simp only [Option.getD_some] at he
                    injection he with he2
                    rw [heq, applyRecUpdate_startDate, ← he2]
                    exact le_prevDay_of_lt (hvstart old hold) hveff
                      (hfut rfl old hold hid)
                · intro e he
                  rw [h1] at he ⊢
                  exact hfutnew rfl e he
            | all =>
                dsimp only at hr
                rcases mem_updateRecurringTransaction hr with h2 | ⟨old, hold, hid, heq⟩
                · exact hinv r h2
                · intro e he
                  rw [heq, applyRecUpdate_endDate] at he
                  rw [heq, applyRecUpdate_startDate]
                  cases hu : u.endDate with
                  | none =>
                      rw [hu] at he
                      simp only [Option.getD_none] at he
                      exact hinv old hold e he
                  | some oe =>
                      rw [hu] at he
                      simp only [Option.getD_some] at he
                      subst he
                      exact hall rfl old hold hid e (by rw [hu])
  · -- scoped delete
    intro r hr
    unfold deleteRecurringTransaction at hr
    cases hex : Store.getRecurringTransactionById st rid with
    | none => rw [hex] at hr; exact hinv r hr
    | some ex =>
        rw [hex] at hr
        dsimp only at hr
        split at hr
        · exact hinv r hr
        · split at hr
          · exact hinv r hr
          · cases scope with
            | single =>
                dsimp only at hr
                split at hr
                · exact hinv r hr
                · exact hinv r hr
            | future =>
                dsimp only at hr
                rcases mem_updateRecurringTransaction hr with h2 | ⟨old, hold, hid, heq⟩
                · exact hinv r h2
                · intro e he
                  rw [heq, applyRecUpdate_endDate] at he
                  simp only [Option.getD_some] at he
                  injection he with he2
                  rw [heq, applyRecUpdate_startDate, ← he2]
                  exact le_prevDay_of_lt (hvstart old hold) hveff
                    (hfut rfl old hold hid)
            | all =>
                dsimp only at hr
                unfold Store.deleteRecurringTransaction at hr
                dsimp only at hr
                exact hinv r (List.mem_of_mem_filter hr)
  · -- generation
    intro r hr
    unfold generateTransactionsFromRecurring at hr
    exact generate_fold_window target maxC _ _ hinv r hr


/-- C6 counterexample.  A future-scope delete whose effective date equals the
series' start date (within the window, hence accepted) stores
`end_date = start_date - 1 day`, violating the end-date-not-before-start
invariant. -/
theorem mutations_preserve_window_inv_counterexample :
    (deleteRecurringTransaction
        ⟨[⟨1, 1, 1, 10, .expense, none, .daily, ⟨2026, 1, 15⟩, none, ⟨2026, 1, 15⟩, true⟩],
         [], [1], 1, 2⟩ 1 ⟨2026, 1, 15⟩ Scope.future).1.seriesList =
      [⟨1, 1, 1, 10, .expense, none, .daily, ⟨2026, 1, 15⟩, some ⟨2026, 1, 14⟩, ⟨2026, 1, 15⟩, true⟩] ∧
    Date.lt ⟨2026, 1, 14⟩ ⟨2026, 1, 15⟩ = true := by
  exact ⟨rfl, by decide⟩


/-- C6 witness: the invariant theorem applied to a concrete future-scope
delete at an effective date strictly inside the window, evaluating the
surviving series row. -/
theorem mutations_preserve_window_inv_witness :
    WindowInv ⟨1, 1, 1, 10, .expense, none, .daily, ⟨2026, 1, 1⟩,
      some ⟨2026, 1, 14⟩, ⟨2026, 1, 1⟩, true⟩ := by
  have h := (mutations_preserve_window_inv
    ⟨[⟨1, 1, 1, 10, .expense, none, .daily, ⟨2026, 1, 1⟩, none, ⟨2026, 1, 1⟩, true⟩],
     [], [1], 1, 2⟩ 1 ⟨2026, 1, 15⟩ ⟨2026, 1, 15⟩ Scope.future {} 365
    (by intro r hr e he
        simp only [List.mem_singleton] at hr
        subst hr
        cases he)
    (by intro r hr
        simp only [List.mem_singleton] at hr
        subst hr
        refine ⟨by simp, by simp, by simp, ?_⟩
        decide)
    (by refine ⟨by simp, by simp, by simp, ?_⟩; decide)
    (by intro _ ex hex hid
        simp only [List.mem_singleton] at hex
        subst hex
        decide)
    (by intro _ e he
        cases he)
    (by intro hcontra
        cases hcontra)).2.1
  exact h _ (by decide)

/-! ## Claim C2: future-scope split followed by generation -/

set_option maxHeartbeats 8000000 in
/-- C2 evaluated at the claim's input.  On a no-end daily series starting
2026-01-01, `editSeries(id, 2026-01-15, future, amount 150)` does end the
original series at 2026-01-14 and creates a series starting 2026-01-15 with
amount 150 — but the new series' `next_occurrence` is set to the calendar
advance of the effective date (2026-01-16), so `generate(2026-01-14)`
followed by `generate(2026-01-20)` materializes 2026-01-01..14 at the old
amount and only 2026-01-16..20 at 150: no ledger entry exists for
2026-01-15, although the claim (and the repository's own scope
documentation) promises one. -/
theorem editSeries_future_skips_effective_date :
    ((editRecurringTransaction
        ⟨[⟨1, 1, 1, 100, .expense, none, .daily, ⟨2026, 1, 1⟩, none, ⟨2026, 1, 1⟩, true⟩],
         [], [1], 1, 2⟩ 1 ⟨2026, 1, 15⟩ Scope.future
        { amount := some 150 }).1.seriesList.map
      (fun s => (s.id, s.startDate, s.endDate, s.amount, s.nextOccurrence))) =
      [(1, ⟨2026, 1, 1⟩, some ⟨2026, 1, 14⟩, 100, ⟨2026, 1, 1⟩),
       (2, ⟨2026, 1, 15⟩, none, 150, ⟨2026, 1, 16⟩)] ∧
    ((generateTransactionsFromRecurring
        (generateTransactionsFromRecurring
          (editRecurringTransaction
            ⟨[⟨1, 1, 1, 100, .expense, none, .daily, ⟨2026, 1, 1⟩, none, ⟨2026, 1, 1⟩, true⟩],
             [], [1], 1, 2⟩ 1 ⟨2026, 1, 15⟩ Scope.future
            { amount := some 150 }).1
          ⟨2026, 1, 14⟩).1
        ⟨2026, 1, 20⟩).1.txs.map (fun t => (t.date, t.amount))) =
      [(⟨2026, 1, 1⟩, 100),
        (⟨2026, 1, 2⟩, 100),
        (⟨2026, 1, 3⟩, 100),
        (⟨2026, 1, 4⟩, 100),
        (⟨2026, 1, 5⟩, 100),
        (⟨2026, 1, 6⟩, 100),
        (⟨2026, 1, 7⟩, 100),
        (⟨2026, 1, 8⟩, 100),
        (⟨2026, 1, 9⟩, 100),
        (⟨2026, 1, 10⟩, 100),
        (⟨2026, 1, 11⟩, 100),
        (⟨2026, 1, 12⟩, 100),
        (⟨2026, 1, 13⟩, 100),
        (⟨2026, 1, 14⟩, 100),
        (⟨2026, 1, 16⟩, 150),
        (⟨2026, 1, 17⟩, 150),
        (⟨2026, 1, 18⟩, 150),
        (⟨2026, 1, 19⟩, 150),
        (⟨2026, 1, 20⟩, 150)] := by
  constructor
  · rfl
  · rfl


/-! ## Claim C3: idempotence of generation -/

theorem addDaysD_succ (n : Nat) (d : Date) :
    addDaysD (n + 1) d = nextDayD (addDaysD n d) := by
  induction n generalizing d with
  | zero => rfl
  | succ k ih => rw [addDaysD, ih]; rfl


theorem addDaysD_add (a b : Nat) (d : Date) :
    addDaysD (a + b) d = addDaysD b (addDaysD a d) := by
  induction b with
  | zero => rfl
  | succ k ih => rw [show a + (k + 1) = (a + k) + 1 from rfl, addDaysD_succ, ih,
      addDaysD_succ]


theorem addDaysD_strictMono {k m : Nat} (h : k < m) (d : Date) :
    Date.lt (addDaysD k d) (addDaysD m d) = true := by
  have : m = k + (m - k) := by omega
  rw [this, addDaysD_add]
  exact addDaysD_lt_of_pos (by omega) (addDaysD k d)


theorem addDaysD_le_mono {k m : Nat} (h : k ≤ m) (d : Date) :
    Date.le (addDaysD k d) (addDaysD m d) = true := by
  rcases Nat.lt_or_ge k m with h2 | h2
  · exact Date.le_of_lt (addDaysD_strictMono h2 d)
  · have : k = m := by omega
    rw [this]; exact Date.le_refl _


/-- A date for which an entry already exists — or whose creation fails — is
never materialized, and leaves the store untouched. -/
theorem processDate_no_create (st : Store) (s : Series) (d : Date)
    (h : isDateValidOccurrence d (seriesShape s) = false ∨
         (∃ t, t ∈ st.txs ∧ t.userId = s.userId ∧ t.date = d ∧
            t.recurringTransactionId = some s.id) ∨
         st.cats.contains s.categoryId = false) :
    (processDateForRecurring st s d).1 = st ∧
      (processDateForRecurring st s d).2.created = false := by
  unfold processDateForRecurring
  by_cases hv : isDateValidOccurrence d (seriesShape s) = true
  · simp only [hv, Bool.not_true, Bool.false_eq_true, if_false]
    cases ho : findOverride st s d with
    | some t => exact ⟨rfl, rfl⟩
    | none =>
        cases he : findExisting st s d with
        | some t => exact ⟨rfl, rfl⟩
        | none =>
            rcases h with h | h | h
            · rw [hv] at h; cases h
            · exfalso
              obtain ⟨t, htm, h1, h2, h3⟩ := h
              have hsome : (findExisting st s d).isSome := by
                unfold findExisting
                rw [List.find?_isSome]
                exact ⟨t, htm, by simp [h1, h2, h3]⟩
              rw [he] at hsome
              cases hsome
            · unfold Store.createTransaction
              rw [h]
              simp
  · have hv0 : isDateValidOccurrence d (seriesShape s) = false :=
      Bool.eq_false_iff.mpr hv
    simp only [hv0, Bool.not_false, if_true]
    exact ⟨by trivial, by trivial⟩


/-- The next pointer handed back by `processDateForRecurring` never falls
before the series start date (given the processed date did not). -/
theorem processDate_next_ge {st : Store} {s : Series} {cur : Date}
    {st2 : Store} {res : ProcResult} {nxt : Date}
    (hge : Date.le s.startDate cur = true)
    (hpd : processDateForRecurring st s cur = (st2, res))
    (hnx : res.nextOccurrence = some nxt) :
    Date.le s.startDate nxt = true := by
  unfold processDateForRecurring at hpd
  have hcalc : Date.le s.startDate (calculateNextOccurrence cur s.frequency) = true :=
    Date.le_trans hge (Date.le_of_lt (calculateNextOccurrence_lt cur s.frequency))
  split at hpd
  · injection hpd with h1 h2
    rw [← h2] at hnx
    dsimp only at hnx
    have hval := findNextValidOccurrence_valid hnx
    exact (isDateValidOccurrence_range hval).1
  · split at hpd
    · injection hpd with h1 h2
      rw [← h2] at hnx
      dsimp only at hnx
      injection hnx with h3
      rw [← h3]
      exact hcalc
    · split at hpd
      · injection hpd with h1 h2
        rw [← h2] at hnx
        dsimp only at hnx
        injection hnx with h3
        rw [← h3]
        exact hcalc
      · split at hpd
        · injection hpd with h1 h2
          rw [← h2] at hnx
          dsimp only at hnx
          injection hnx with h3
          rw [← h3]
          exact hcalc
        · injection hpd with h1 h2
          rw [← h2] at hnx
          dsimp only at hnx
          injection hnx with h3
          rw [← h3]
          exact hcalc


/-- Under per-series saturation, the catch-up walk creates nothing and leaves
the store untouched. -/
theorem walk_no_create (s : Series) (target : Date)
    (txs0 : List Entry) (cats0 : List Nat)
    (hs : SatSeries txs0 cats0 target s) :
    ∀ (fuel : Nat) (st : Store) (cur : Date) (lp : Option Date)
      (proc cr sk : Nat),
      st.txs = txs0 → st.cats = cats0 →
      Date.le s.startDate cur = true →
      Date.le (effectiveEnd s.endDate target) target = true →
      (walk s s.startDate s.endDate (effectiveEnd s.endDate target)
          fuel st cur lp proc cr sk).store = st ∧
      (walk s s.startDate s.endDate (effectiveEnd s.endDate target)
          fuel st cur lp proc cr sk).created = cr := by
  intro fuel
  induction fuel with
  | zero => intro st cur lp proc cr sk _ _ _ _; exact ⟨rfl, rfl⟩
  | succ f ih =>
      intro st cur lp proc cr sk htx hct hge heff
      rw [walk.eq_def]
      dsimp only
      split
      · exact ⟨rfl, rfl⟩
      · next hle0 =>
          split
          · exact ⟨rfl, rfl⟩
          · have hle : Date.le cur (effectiveEnd s.endDate target) = true := by
              rcases hx : Date.le cur (effectiveEnd s.endDate target) with _ | _
              · exfalso; apply hle0; rw [hx]; rfl
              · rfl
            have hcl : Date.lt cur s.startDate = false := Date.not_lt.mpr hge
            rw [if_neg (by rw [hcl]; exact Bool.false_ne_true)]
            have hcur_le : Date.le cur target = true := Date.le_trans hle heff
            have hnc : (processDateForRecurring st s cur).1 = st ∧
                (processDateForRecurring st s cur).2.created = false := by
              apply processDate_no_create
              by_cases hv : isDateValidOccurrence cur (seriesShape s) = true
              · right
                rcases hs cur hv hcur_le with ⟨t, htm, hr⟩ | hcat
                · exact Or.inl ⟨t, by rw [htx]; exact htm, hr⟩
                · exact Or.inr (by rw [hct]; exact hcat)
              · exact Or.inl (Bool.eq_false_iff.mpr hv)
            rcases hpd : processDateForRecurring st s cur with ⟨st2, res⟩
            rw [hpd] at hnc
            dsimp only at hnc
            obtain ⟨hst2, hcre⟩ := hnc
            subst hst2
            cases hnx : res.nextOccurrence with
            | none =>
                dsimp only
                rw [hcre]
                exact ⟨rfl, rfl⟩
            | some nxt =>
                obtain ⟨ny, nm, nd⟩ := nxt
                dsimp only
                rw [hcre]
                exact ih _ _ _ _ _ _ htx hct
                  (processDate_next_ge hge hpd hnx) heff


theorem updateRecurringTransaction_txs (st : Store) (i : Nat)
    (u : Store.RecUpdate) :
    (Store.updateRecurringTransaction st i u).txs = st.txs := rfl


theorem updateRecurringTransaction_cats (st : Store) (i : Nat)
    (u : Store.RecUpdate) :
    (Store.updateRecurringTransaction st i u).cats = st.cats := rfl


theorem effectiveEnd_le (rEnd : Option Date) (t : Date) :
    Date.le (effectiveEnd rEnd t) t = true := by
  unfold effectiveEnd
  cases rEnd with
  | none => exact Date.le_refl t
  | some e =>
      dsimp only
      split
      · next h => exact Date.le_of_lt h
      · exact Date.le_refl t


/-- Under per-series saturation, the walk-and-persist step creates nothing
and only rewrites the series pointer. -/
theorem runWalkStore_no_create (s : Series) (target : Date) (maxC : Nat)
    (st0 : Store) (cur0 : Date)
    (hs : SatSeries st0.txs st0.cats target s)
    (hge : Date.le s.startDate cur0 = true) :
    (runWalkStore s target maxC st0 cur0).1.txs = st0.txs ∧
    (runWalkStore s target maxC st0 cur0).1.cats = st0.cats ∧
    (runWalkStore s target maxC st0 cur0).2.1 = 0 := by
  unfold runWalkStore
  rcases hww : walk s s.startDate s.endDate (effectiveEnd s.endDate target)
      maxC st0 cur0 none 0 0 0 with ⟨wst, wcr, wsk, wlp, wcur, wproc⟩
  dsimp only
  have hw := walk_no_create s target st0.txs st0.cats hs maxC st0 cur0 none 0 0 0
    rfl rfl hge (effectiveEnd_le s.endDate target)
  rw [hww] at hw
  dsimp only at hw
  obtain ⟨hst, hcr⟩ := hw
  cases hns : nextOccurrenceToStore s s.startDate s.endDate
      (effectiveEnd s.endDate target) ⟨wst, wcr, wsk, wlp, wcur, wproc⟩ with
  | some v =>
      dsimp only
      refine ⟨?_, ?_, ?_⟩
      · rw [updateRecurringTransaction_txs, hst]
      · rw [updateRecurringTransaction_cats, hst]
      · exact hcr
  | none =>
      dsimp only
      exact ⟨by rw [hst], by rw [hst], hcr⟩


/-- Under per-series saturation, processing one due series creates nothing
and only rewrites series pointers. -/
theorem generateOne_no_create (st : Store) (target : Date) (maxC : Nat)
    (s : Series) (hs : SatSeries st.txs st.cats target s) :
    (generateOne st target maxC s).1.txs = st.txs ∧
    (generateOne st target maxC s).1.cats = st.cats ∧
    (generateOne st target maxC s).2.1 = 0 := by
  unfold generateOne
  split
  · exact ⟨rfl, rfl, rfl⟩
  · dsimp only
    split
    · exact ⟨rfl, rfl, rfl⟩
    · split
      · next hval =>
          exact runWalkStore_no_create s target maxC st s.nextOccurrence hs
            (isDateValidOccurrence_range hval).1
      · split
        · exact ⟨rfl, rfl, rfl⟩
        · next nv hnv =>
            split
            · exact ⟨rfl, rfl, rfl⟩
            · exact runWalkStore_no_create s target maxC st nv hs
                (isDateValidOccurrence_range (findNextValidOccurrence_valid hnv)).1


/-- The generation fold under saturation: no creations, entries and
categories untouched. -/
theorem generate_fold_no_create (target : Date) (maxC : Nat)
    (txs0 : List Entry) (cats0 : List Nat) :
    ∀ (l : List Series) (acc : Store × Nat × Nat),
      acc.1.txs = txs0 → acc.1.cats = cats0 →
      (∀ s ∈ l, SatSeries txs0 cats0 target s) →
      (l.foldl
          (fun acc s =>
            match generateOne acc.1 target maxC s with
            | (st2, c2, k2) => (st2, acc.2.1 + c2, acc.2.2 + k2)) acc).2.1 =
        acc.2.1 := by
  intro l
  induction l with
  | nil => intro acc _ _ _; rfl
  | cons s l ih =>
      intro acc htx hct hsat
      rw [List.foldl_cons]
      have hs : SatSeries acc.1.txs acc.1.cats target s := by
        rw [htx, hct]
        exact hsat s (List.mem_cons_self s l)
      have hg := generateOne_no_create acc.1 target maxC s hs
      rcases hgg : generateOne acc.1 target maxC s with ⟨st2, c2, k2⟩
      rw [hgg] at hg
      dsimp only at hg
      obtain ⟨h1, h2, h3⟩ := hg
      have hrec := ih (st2, acc.2.1 + c2, acc.2.2 + k2)
        (by dsimp only; rw [h1, htx]) (by dsimp only; rw [h2, hct])
        (fun s2 hs2 => hsat s2 (List.mem_cons_of_mem s hs2))
      dsimp only
      rw [hrec]
      dsimp only
      omega


theorem mem_insertByNext {s t : Series} {l : List Series}
    (h : t ∈ Store.insertByNext s l) : t = s ∨ t ∈ l := by
  induction l with
  | nil =>
      unfold Store.insertByNext at h
      exact Or.inl (List.mem_singleton.mp h)
  | cons a l ih =>
      unfold Store.insertByNext at h
      by_cases hc : Date.lt s.nextOccurrence a.nextOccurrence = true
      · rw [if_pos hc] at h
        rcases List.mem_cons.mp h with h2 | h2
        · exact Or.inl h2
        · exact Or.inr h2
      · rw [if_neg hc] at h
        rcases List.mem_cons.mp h with h2 | h2
        · exact Or.inr (by rw [h2]; exact List.mem_cons_self a l)
        · rcases ih h2 with h3 | h3
          · exact Or.inl h3
          · exact Or.inr (List.mem_cons_of_mem a h3)


theorem mem_sortByNext {t : Series} {l : List Series}
    (h : t ∈ Store.sortByNext l) : t ∈ l := by
  induction l with
  | nil =>
      unfold Store.sortByNext at h
      cases h
  | cons a l ih =>
      unfold Store.sortByNext at h
      rcases mem_insertByNext h with h2 | h2
      · rw [h2]; exact List.mem_cons_self a l
      · exact List.mem_cons_of_mem a (ih h2)


/-- A due series is a series of the store. -/
theorem mem_getDueRecurringTransactions {st : Store} {target : Date}
    {s : Series} (h : s ∈ Store.getDueRecurringTransactions st target) :
    s ∈ st.seriesList := by
  unfold Store.getDueRecurringTransactions at h
  exact List.mem_of_mem_filter (mem_sortByNext h)


/-- C3 (amended).  Generation creates nothing on a saturated store — one in
which every valid occurrence up to the target of every series already has a
ledger entry or a deterministically failing creation.  A first `generate(d)`
leaves the store saturated up to `d` — hence the second call creates 0 —
except when the first walk was truncated by the `maxCatchUpDays` /
`maxIterations` caps, as the counterexample shows. -/
theorem generate_idempotent_when_saturated (st : Store) (target : Date)
    (maxC : Nat) (hsat : Saturated st target) :
    (generateTransactionsFromRecurring st target maxC).2.1 = 0 := by
  unfold generateTransactionsFromRecurring
  exact generate_fold_no_create target maxC st.txs st.cats
    (Store.getDueRecurringTransactions st target) (st, 0, 0) rfl rfl
    (fun s hs d hv hle => hsat s (mem_getDueRecurringTransactions hs) d hv hle)


/-- Concrete instantiation of `generate_idempotent_when_saturated`: a
single-occurrence series whose only valid date is already materialized. -/
theorem generate_idempotent_when_saturated_witness :
    (generateTransactionsFromRecurring
      ⟨[⟨1, 1, 1, 10, .expense, none, .daily, ⟨2026, 1, 5⟩, some ⟨2026, 1, 5⟩, ⟨2026, 1, 5⟩, true⟩],
       [⟨0, 1, 1, 10, .expense, none, ⟨2026, 1, 5⟩, some 1, false⟩], [1], 1, 2⟩
      ⟨2026, 1, 10⟩).2.1 = 0 := by
  apply generate_idempotent_when_saturated
  intro s hs d hv hle
  simp only [List.mem_singleton] at hs
  subst hs
  left
  have hr := isDateValidOccurrence_range hv
  have h1 : Date.le ⟨2026, 1, 5⟩ d = true := hr.1
  have h2 : Date.le d ⟨2026, 1, 5⟩ = true := by
    have := hr.2
    unfold afterEnd at this
    exact Date.not_lt.mp this
  have hd : d = ⟨2026, 1, 5⟩ := Date.le_antisymm h2 h1
  subst hd
  exact ⟨⟨0, 1, 1, 10, .expense, none, ⟨2026, 1, 5⟩, some 1, false⟩,
    List.mem_singleton.mpr rfl, rfl, rfl, rfl⟩


/-- One step of the walk when an advancing next occurrence is returned. -/
theorem walk_step (s : Series) (rStart : Date) (rEnd : Option Date)
    (effEnd : Date) (fuel : Nat) (st : Store) (cur : Date) (lp : Option Date)
    (proc cr sk : Nat) {st2 : Store} {res : ProcResult} {nxt : Date}
    (hle : Date.le cur effEnd = true)
    (hend : (match rEnd with | some e => Date.lt e cur | none => false) = false)
    (hcl : Date.lt cur rStart = false)
    (hpd : processDateForRecurring st s cur = (st2, res))
    (hnx : res.nextOccurrence = some nxt) :
    walk s rStart rEnd effEnd (fuel + 1) st cur lp proc cr sk =
      walk s rStart rEnd effEnd fuel st2 nxt
        (if res.created then some cur else lp) (proc + 1)
        (if res.created then cr + 1 else cr)
        (if res.created then sk else sk + 1) := by
  rw [walk.eq_def]
  dsimp only
  rw [if_neg (by rw [hle]; exact Bool.false_ne_true)]
  rw [if_neg (by rw [hend]; exact Bool.false_ne_true)]
  rw [if_neg (by rw [hcl]; exact Bool.false_ne_true)]
  rw [hpd]
  dsimp only
  rw [hnx]


/-- The walk exits as soon as the current date passes the window end. -/
theorem walk_exit (s : Series) (rStart : Date) (rEnd : Option Date)
    (effEnd : Date) (fuel : Nat) (st : Store) (cur : Date) (lp : Option Date)
    (proc cr sk : Nat) (hle : Date.le cur effEnd = false) :
    walk s rStart rEnd effEnd (fuel + 1) st cur lp proc cr sk =
      ⟨st, cr, sk, lp, cur, proc⟩ := by
  rw [walk.eq_def]
  dsimp only
  rw [if_pos (by rw [hle]; rfl)]


/-- `processDateForRecurring` on a valid date already covered by a
(non-override) entry: skip, store untouched, advance. -/
theorem processDate_skip_existing {st : Store} {s : Series} {d : Date}
    {t : Entry} (hv : isDateValidOccurrence d (seriesShape s) = true)
    (ho : findOverride st s d = none)
    (he : findExisting st s d = some t) :
    processDateForRecurring st s d =
      (st, ⟨false, true, some (calculateNextOccurrence d s.frequency)⟩) := by
  unfold processDateForRecurring
  rw [hv, ho, he]
  rfl


/-- `processDateForRecurring` on a valid, uncovered date with a live
category: create the entry and advance. -/
theorem processDate_create {st : Store} {s : Series} {d : Date}
    (hv : isDateValidOccurrence d (seriesShape s) = true)
    (ho : findOverride st s d = none)
    (he : findExisting st s d = none)
    (hc : st.cats.contains s.categoryId = true) :
    processDateForRecurring st s d =
      ({ st with
         txs := st.txs ++
           [⟨st.nextTxId, s.userId, s.categoryId, s.amount, s.type,
             s.description, d, some s.id, false⟩],
         nextTxId := st.nextTxId + 1 },
       ⟨true, false, some (calculateNextOccurrence d s.frequency)⟩) := by
  unfold processDateForRecurring
  rw [hv, ho, he]
  unfold Store.createTransaction
  rw [hc]
  rfl


/-- Characterization of `runWalkStore` from a computed walk result and a
computed pointer decision. -/
theorem runWalkStore_eq_some (s : Series) (target : Date) (maxC : Nat)
    (st0 : Store) (cur0 : Date) {wres : WalkResult} {v : Date}
    (hw : walk s s.startDate s.endDate (effectiveEnd s.endDate target)
        maxC st0 cur0 none 0 0 0 = wres)
    (hns : nextOccurrenceToStore s s.startDate s.endDate
        (effectiveEnd s.endDate target) wres = some v) :
    runWalkStore s target maxC st0 cur0 =
      (Store.updateRecurringTransaction wres.store s.id
        { nextOccurrence := some v }, wres.created, wres.skipped) := by
  unfold runWalkStore
  rcases hww : walk s s.startDate s.endDate (effectiveEnd s.endDate target)
      maxC st0 cur0 none 0 0 0 with ⟨wst, wcr, wsk, wlp, wcur, wproc⟩
  rw [hww] at hw
  subst hw
  dsimp only
  rw [hns]


theorem c3_e365 : addDaysD 365 c3Base = ⟨2020, 12, 31⟩ := by
  rw [show (365 : Nat) = 31 + (29 + (31 + (30 + (31 + (30 + (31 + (31 + (30 + (31 + (30 + (30))))))))))) from rfl]
  rw [addDaysD_add]
  rw [show addDaysD 31 c3Base = (⟨2020, 2, 1⟩ : Date) from by
    simp [c3Base, addDaysD, nextDayD, daysInMonth, isLeap]]
  rw [addDaysD_add]
  rw [show addDaysD 29 (⟨2020, 2, 1⟩ : Date) = (⟨2020, 3, 1⟩ : Date) from by
    simp [addDaysD, nextDayD, daysInMonth, isLeap]]
  rw [addDaysD_add]
  rw [show addDaysD 31 (⟨2020, 3, 1⟩ : Date) = (⟨2020, 4, 1⟩ : Date) from by
    simp [addDaysD, nextDayD, daysInMonth, isLeap]]
  rw [addDaysD_add]
  rw [show addDaysD 30 (⟨2020, 4, 1⟩ : Date) = (⟨2020, 5, 1⟩ : Date) from by
    simp [addDaysD, nextDayD, daysInMonth, isLeap]]
  rw [addDaysD_add]
  rw [show addDaysD 31 (⟨2020, 5, 1⟩ : Date) = (⟨2020, 6, 1⟩ : Date) from by
    simp [addDaysD, nextDayD, daysInMonth, isLeap]]
  rw [addDaysD_add]
  rw [show addDaysD 30 (⟨2020, 6, 1⟩ : Date) = (⟨2020, 7, 1⟩ : Date) from by
    simp [addDaysD, nextDayD, daysInMonth, isLeap]]
  rw [addDaysD_add]
  rw [show addDaysD 31 (⟨2020, 7, 1⟩ : Date) = (⟨2020, 8, 1⟩ : Date) from by
    simp [addDaysD, nextDayD, daysInMonth, isLeap]]
  rw [addDaysD_add]
  rw [show addDaysD 31 (⟨2020, 8, 1⟩ : Date) = (⟨2020, 9, 1⟩ : Date) from by
    simp [addDaysD, nextDayD, daysInMonth, isLeap]]
  rw [addDaysD_add]
  rw [show addDaysD 30 (⟨2020, 9, 1⟩ : Date) = (⟨2020, 10, 1⟩ : Date) from by
    simp [addDaysD, nextDayD, daysInMonth, isLeap]]
  rw [addDaysD_add]
  rw [show addDaysD 31 (⟨2020, 10, 1⟩ : Date) = (⟨2020, 11, 1⟩ : Date) from by
    simp [addDaysD, nextDayD, daysInMonth, isLeap]]
  rw [addDaysD_add]
  rw [show addDaysD 30 (⟨2020, 11, 1⟩ : Date) = (⟨2020, 12, 1⟩ : Date) from by
    simp [addDaysD, nextDayD, daysInMonth, isLeap]]
  rw [show addDaysD 30 (⟨2020, 12, 1⟩ : Date) = (⟨2020, 12, 31⟩ : Date) from by
    simp [addDaysD, nextDayD, daysInMonth, isLeap]]
theorem c3_e366 : addDaysD 366 c3Base = c3Target := by
  rw [show (366 : Nat) = 365 + 1 from rfl, addDaysD_succ, c3_e365]
  rfl


theorem c3_e367 : addDaysD 367 c3Base = ⟨2021, 1, 2⟩ := by
  rw [show (367 : Nat) = 366 + 1 from rfl, addDaysD_succ, c3_e366]
  rfl


/-- Every date on or after the start is a valid occurrence of the daily
counterexample series. -/
theorem c3_valid {d : Date} (h : Date.le c3Base d = true) :
    isDateValidOccurrence d ⟨c3Base, none, Frequency.daily⟩ = true := by
  unfold isDateValidOccurrence afterEnd
  dsimp only
  rw [Date.not_lt.mpr h]
  rfl


/-- No override entries exist in a store whose entries are all generated. -/
theorem findOverride_none_of_no_override (st : Store) (s : Series) (d : Date)
    (h : ∀ t ∈ st.txs, t.isOverride = false) :
    findOverride st s d = none := by
  unfold findOverride
  rw [List.find?_eq_none]
  intro t ht
  rw [h t ht]
  simp


/-- No entry matches a date different from every stored entry's date. -/
theorem findExisting_none_of_dates (st : Store) (s : Series) (d : Date)
    (h : ∀ t ∈ st.txs, (t.date == d) = false) :
    findExisting st s d = none := by
  unfold findExisting
  rw [List.find?_eq_none]
  intro t ht
  rw [h t ht]
  simp


theorem c3Entry_mem {i : Nat} (h : i < 365) :
    c3Entry i ∈ c3Store.txs :=
  List.mem_map.mpr ⟨i, List.mem_range.mpr h, rfl⟩


theorem c3Store_no_override : ∀ t ∈ c3Store.txs, t.isOverride = false := by
  intro t ht
  obtain ⟨i, _, rfl⟩ := List.mem_map.mp ht
  rfl


/-- First run of the counterexample: all 365 budgeted dates are already
materialized, so the walk skips them all and stops at the cap with the
current date on day 366. -/
theorem c3_run1_walk : ∀ j, j ≤ 365 →
    walk c3Series c3Base none c3Target j c3Store
        (addDaysD (365 - j) c3Base) none (365 - j) 0 (365 - j) =
      ⟨c3Store, 0, 365, none, addDaysD 365 c3Base, 365⟩ := by
  intro j
  induction j with
  | zero => intro _; rfl
  | succ j ih =>
      intro hj
      have hlt366 : 365 - (j + 1) < 366 := by omega
      have hmono := addDaysD_strictMono hlt366 c3Base
      rw [c3_e366] at hmono
      have hle : Date.le (addDaysD (365 - (j + 1)) c3Base) c3Target = true :=
        Date.le_of_lt hmono
      have hcl : Date.lt (addDaysD (365 - (j + 1)) c3Base) c3Base = false :=
        Date.not_lt.mpr (addDaysD_le _ c3Base)
      have hval : isDateValidOccurrence (addDaysD (365 - (j + 1)) c3Base)
          (seriesShape c3Series) = true :=
        c3_valid (addDaysD_le _ c3Base)
      have hov : findOverride c3Store c3Series (addDaysD (365 - (j + 1)) c3Base) = none :=
        findOverride_none_of_no_override _ _ _ c3Store_no_override
      cases hfe : findExisting c3Store c3Series (addDaysD (365 - (j + 1)) c3Base) with
      | none =>
          exfalso
          have hsome : (findExisting c3Store c3Series
              (addDaysD (365 - (j + 1)) c3Base)).isSome := by
            unfold findExisting
            rw [List.find?_isSome]
            refine ⟨c3Entry (365 - (j + 1)), c3Entry_mem (by omega), ?_⟩
            simp [c3Entry, c3Series]
          rw [hfe] at hsome
          cases hsome
      | some t =>
          have hpd := processDate_skip_existing hval hov hfe
          rw [walk_step c3Series c3Base none c3Target j c3Store
            (addDaysD (365 - (j + 1)) c3Base) none (365 - (j + 1)) 0
            (365 - (j + 1)) hle rfl hcl hpd rfl]
          dsimp only
          rw [show calculateNextOccurrence (addDaysD (365 - (j + 1)) c3Base)
              c3Series.frequency = addDaysD (365 - (j + 1) + 1) c3Base from by
            rw [addDaysD_succ]; rfl]
          rw [show 365 - (j + 1) + 1 = 365 - j from by omega]
          exact ih (by omega)


theorem c3_run1 :
    generateTransactionsFromRecurring c3Store c3Target = (c3Store1, 0, 365) := by
  have hw : walk c3Series c3Series.startDate c3Series.endDate
      (effectiveEnd c3Series.endDate c3Target) 365 c3Store c3Base none 0 0 0 =
      ⟨c3Store, 0, 365, none, ⟨2020, 12, 31⟩, 365⟩ := by
    have h := c3_run1_walk 365 (Nat.le_refl 365)
    rw [show (365 - 365 : Nat) = 0 from rfl] at h
    rw [show addDaysD 0 c3Base = c3Base from rfl] at h
    rw [c3_e365] at h
    exact h
  have hns : nextOccurrenceToStore c3Series c3Series.startDate c3Series.endDate
      (effectiveEnd c3Series.endDate c3Target)
      ⟨c3Store, 0, 365, none, ⟨2020, 12, 31⟩, 365⟩ = some ⟨2020, 12, 31⟩ := by
    unfold nextOccurrenceToStore
    dsimp only
    rw [show c3Series.frequency = Frequency.daily from rfl,
        show c3Series.startDate = c3Base from rfl,
        show c3Series.endDate = (none : Option Date) from rfl]
    rw [if_pos (by decide : (0 : Nat) < 365)]
    rw [if_pos (c3_valid (by decide))]
  have hrw := runWalkStore_eq_some c3Series c3Target 365 c3Store c3Base hw hns
  unfold generateTransactionsFromRecurring
  dsimp only
  rw [show Store.getDueRecurringTransactions c3Store c3Target = [c3Series] from by decide]
  rw [List.foldl_cons, List.foldl_nil]
  rw [show generateOne c3Store c3Target 365 c3Series =
      runWalkStore c3Series c3Target 365 c3Store c3Base from by
    unfold generateOne
    rw [if_neg (by decide : ¬ ((!c3Series.isActive) = true))]
    dsimp only
    rw [if_neg (by decide :
      ¬ ((!Date.le c3Series.nextOccurrence (effectiveEnd c3Series.endDate c3Target)) = true))]
    rw [show seriesShape c3Series = ⟨c3Base, none, Frequency.daily⟩ from rfl,
        show c3Series.nextOccurrence = c3Base from rfl]
    rw [if_pos (c3_valid (Date.le_refl c3Base))]]
  rw [hrw]
  rfl


theorem c3Store1_no_override : ∀ t ∈ c3Store1.txs, t.isOverride = false := by
  intro t ht
  obtain ⟨i, _, rfl⟩ := List.mem_map.mp ht
  rfl


theorem c3Store2_no_override : ∀ t ∈ c3Store2.txs, t.isOverride = false := by
  intro t ht
  rcases List.mem_append.mp ht with h | h
  · obtain ⟨i, _, rfl⟩ := List.mem_map.mp h
    rfl
  · rw [List.mem_singleton] at h
    subst h
    rfl


theorem c3Store1_dates :
    ∀ t ∈ c3Store1.txs, (t.date == (⟨2020, 12, 31⟩ : Date)) = false := by
  intro t ht
  obtain ⟨i, hi, rfl⟩ := List.mem_map.mp ht
  rw [List.mem_range] at hi
  have hlt : Date.lt (addDaysD i c3Base) (addDaysD 365 c3Base) = true :=
    addDaysD_strictMono hi c3Base
  rw [c3_e365] at hlt
  exact beq_eq_false_iff_ne.mpr (Date.ne_of_lt hlt)


theorem c3Store2_dates : ∀ t ∈ c3Store2.txs, (t.date == c3Target) = false := by
  intro t ht
  rcases List.mem_append.mp ht with h | h
  · obtain ⟨i, hi, rfl⟩ := List.mem_map.mp h
    rw [List.mem_range] at hi
    have hlt : Date.lt (addDaysD i c3Base) (addDaysD 366 c3Base) = true :=
      addDaysD_strictMono (by omega) c3Base
    rw [c3_e366] at hlt
    exact beq_eq_false_iff_ne.mpr (Date.ne_of_lt hlt)
  · rw [List.mem_singleton] at h
    subst h
    decide


theorem c3_pd1 : processDateForRecurring c3Store1 c3Series1 ⟨2020, 12, 31⟩ =
    (c3Store2, ⟨true, false, some c3Target⟩) := by
  have hv : isDateValidOccurrence ⟨2020, 12, 31⟩ (seriesShape c3Series1) = true := by
    rw [show seriesShape c3Series1 = (⟨c3Base, none, Frequency.daily⟩ : RecShape) from rfl]
    exact c3_valid (by decide)
  rw [processDate_create hv
    (findOverride_none_of_no_override _ _ _ c3Store1_no_override)
    (findExisting_none_of_dates _ _ _ c3Store1_dates)
    (by decide)]
  rfl


theorem c3_pd2 : processDateForRecurring c3Store2 c3Series1 c3Target =
    (c3Store3, ⟨true, false, some ⟨2021, 1, 2⟩⟩) := by
  have hv : isDateValidOccurrence c3Target (seriesShape c3Series1) = true := by
    rw [show seriesShape c3Series1 = (⟨c3Base, none, Frequency.daily⟩ : RecShape) from rfl]
    exact c3_valid (by decide)
  rw [processDate_create hv
    (findOverride_none_of_no_override _ _ _ c3Store2_no_override)
    (findExisting_none_of_dates _ _ _ c3Store2_dates)
    (by decide)]
  rfl


/-- Second run of the counterexample walk: the two remaining dates
(2020-12-31 and 2021-01-01) are materialized, then the walk exits past the
target. -/
theorem c3_run2_walk :
    walk c3Series1 c3Base none c3Target 365 c3Store1 ⟨2020, 12, 31⟩ none 0 0 0 =
      ⟨c3Store3, 2, 0, some c3Target, ⟨2021, 1, 2⟩, 2⟩ := by
  rw [show (365 : Nat) = 364 + 1 from rfl,
      walk_step c3Series1 c3Base none c3Target 364 c3Store1 ⟨2020, 12, 31⟩
        none 0 0 0 (by decide) rfl (by decide) c3_pd1 rfl]
  rw [if_pos (rfl : (true : Bool) = true), if_pos (rfl : (true : Bool) = true),
      if_pos (rfl : (true : Bool) = true)]
  rw [show (0 + 1 : Nat) = 1 from rfl]
  rw [show (364 : Nat) = 363 + 1 from rfl,
      walk_step c3Series1 c3Base none c3Target 363 c3Store2 c3Target
        (some ⟨2020, 12, 31⟩) 1 1 0 (by decide) rfl (by decide) c3_pd2 rfl]
  rw [if_pos (rfl : (true : Bool) = true), if_pos (rfl : (true : Bool) = true),
      if_pos (rfl : (true : Bool) = true)]
  rw [show (1 + 1 : Nat) = 2 from rfl]
  rw [show (363 : Nat) = 362 + 1 from rfl,
      walk_exit c3Series1 c3Base none c3Target 362 c3Store3 ⟨2021, 1, 2⟩
        (some c3Target) 2 2 0 (by decide)]


/-- Second run of the counterexample: the pointer sits on the first
unmaterialized date, so the run creates the two remaining entries. -/
theorem c3_run2 : (generateTransactionsFromRecurring c3Store1 c3Target).2.1 = 2 := by
  have hw : walk c3Series1 c3Series1.startDate c3Series1.endDate
      (effectiveEnd c3Series1.endDate c3Target) 365 c3Store1 ⟨2020, 12, 31⟩
      none 0 0 0 = ⟨c3Store3, 2, 0, some c3Target, ⟨2021, 1, 2⟩, 2⟩ :=
    c3_run2_walk
  have hns : nextOccurrenceToStore c3Series1 c3Series1.startDate
      c3Series1.endDate (effectiveEnd c3Series1.endDate c3Target)
      ⟨c3Store3, 2, 0, some c3Target, ⟨2021, 1, 2⟩, 2⟩ = some ⟨2021, 1, 2⟩ := by
    unfold nextOccurrenceToStore
    dsimp only
    rw [show c3Series1.frequency = Frequency.daily from rfl,
        show c3Series1.startDate = c3Base from rfl,
        show c3Series1.endDate = (none : Option Date) from rfl]
    rw [show calculateNextOccurrence c3Target Frequency.daily =
        (⟨2021, 1, 2⟩ : Date) from rfl]
    rw [if_pos (c3_valid (by decide))]
  have hrw := runWalkStore_eq_some c3Series1 c3Target 365 c3Store1
    ⟨2020, 12, 31⟩ hw hns
  unfold generateTransactionsFromRecurring
  dsimp only
  rw [show Store.getDueRecurringTransactions c3Store1 c3Target = [c3Series1]
    from by decide]
  rw [List.foldl_cons, List.foldl_nil]
  rw [show generateOne c3Store1 c3Target 365 c3Series1 =
      runWalkStore c3Series1 c3Target 365 c3Store1 ⟨2020, 12, 31⟩ from by
    unfold generateOne
    rw [if_neg (by decide : ¬ ((!c3Series1.isActive) = true))]
    dsimp only
    rw [if_neg (by decide :
      ¬ ((!Date.le c3Series1.nextOccurrence
          (effectiveEnd c3Series1.endDate c3Target)) = true))]
    rw [show seriesShape c3Series1 = (⟨c3Base, none, Frequency.daily⟩ : RecShape) from rfl,
        show c3Series1.nextOccurrence = (⟨2020, 12, 31⟩ : Date) from rfl]
    rw [if_pos (c3_valid (by decide))]]
  rw [hrw]
  rfl


/-- The saturation hypothesis of the idempotence theorem fails on the
counterexample: the first run leaves the store unsaturated (the cap cut the
walk short of the target), and a second identical run creates two entries
instead of zero. -/
theorem generate_repeat_counterexample :
    (generateTransactionsFromRecurring
        (generateTransactionsFromRecurring c3Store c3Target).1 c3Target).2.1 = 2 ∧
    (generateTransactionsFromRecurring
        (generateTransactionsFromRecurring c3Store c3Target).1 c3Target).2.1 ≠ 0 := by
  rw [c3_run1]
  dsimp only
  exact ⟨c3_run2, by rw [c3_run2]; decide⟩


end FinHub
